import Mathlib

/-!
Verification development for the wire-protocol codec layer of
dubbo-serialization-node: the type-descriptor translator (lib/utils.js),
the request packet assembler (lib/protocol/request.js), the serialization
registry, and the HashMap-projection / readObject policies of the
protocol-buffer based serialization drivers.

JavaScript values are embedded as the inductive `JsValue`; buffers are
`List Nat` of byte values; fallible code returns `Except`.
-/

/-- Errors of the codec layer, following the spec's error taxonomy.
`unknownCodec` covers an unresolvable serialization id (the JS code
returns `undefined` from the registry and then crashes on the
`.deserialize` access; resolution fails, no default is substituted).
`typeMismatch` models a driver read yielding a value of the wrong
shape for the decode step consuming it. -/
inductive CodecErr
  | unknownCodec
  | unknownDescriptorChar (msg : String)
  | lenOverflow
  | typeMismatch
  deriving DecidableEq, Repr

/-- A dynamically-typed argument value, as classified by the runtime
type inspection in `getJavaClassDesc` (lib/utils.js lines 60-108):
null/undefined, the `typeof` cases (boolean, string, number - a number
carries its value and whether it is integral, so that the `is.long` /
`is.int` tests of is-type-of can be evaluated), then `is.date`,
`is.buffer`, `is.array`, `is.error`, a plain object without a `$class`
tag, and an object carrying a `$class` tag (with an optional
`$abstractClass`). -/
inductive JsValue
  | vnull
  | vundef
  | vbool (b : Bool)
  | vnum (n : Int) (integral : Bool)
  | vstr (s : String)
  | vdate
  | vbuffer
  | varr
  | verr
  | vobj
  | vtagged (cls : String) (abstractCls : Option String)
  deriving DecidableEq, Repr

/-- The `primitiveMap` table of lib/utils.js lines 42-52, giving the
one-letter JVM code of each primitive type name. -/
def primitiveMap : String → Option Char
  | "void" => some 'V'
  | "boolean" => some 'Z'
  | "byte" => some 'B'
  | "char" => some 'C'
  | "double" => some 'D'
  | "float" => some 'F'
  | "int" => some 'I'
  | "long" => some 'J'
  | "short" => some 'S'
  | _ => none

/-- The `while (isArray($class)) ... getComponentType` loop of
lib/utils.js lines 98-101: strips every leading `[` and counts them. -/
def stripDims : List Char → Nat × List Char
  | '[' :: rest => ((stripDims rest).1 + 1, (stripDims rest).2)
  | l => (0, l)

/-- `val.$abstractClass || val.$class` (lib/utils.js line 97): a falsy
`$abstractClass` (absent, or the empty string) falls back to `$class`. -/
def effectiveClass (cls : String) (abstractCls : Option String) : String :=
  match abstractCls with
  | some a => if a = "" then cls else a
  | none => cls

/-- `$class.replace(/\./g, '/')` of lib/utils.js line 105. -/
def dot2slash (l : List Char) : List Char :=
  l.map (fun c => if c = '.' then '/' else c)

/-- `getJavaClassDesc` (lib/utils.js lines 60-108) as a character list:
maps one argument value to its Java type-descriptor signature, following
the source's branch order (null check, `typeof` switch with the
`is.long` / `is.int` / double distinction, then date, buffer, array,
error, plain object, and finally the `$class` escape hatch with its
leading-`[` stripping loop). -/
def getJavaClassDescCh : JsValue → List Char
  | .vnull => "Ljava/lang/Object;".data
  | .vundef => "Ljava/lang/Object;".data
  | .vbool _ => ['Z']
  | .vstr _ => "Ljava/lang/String;".data
  | .vnum n integral =>
      if integral && (decide (n < -2147483648) || decide (2147483647 < n)) then ['J']
      else if integral then ['I']
      else ['D']
  | .vdate => "Ljava/util/Date;".data
  | .vbuffer => ['[', 'B']
  | .varr => "Ljava/util/ArrayList;".data
  | .verr => "Ljava/lang/Exception;".data
  | .vobj => "Ljava/util/HashMap;".data
  | .vtagged cls abstractCls =>
      let eff := effectiveClass cls abstractCls
      let p := stripDims eff.data
      List.replicate p.1 '[' ++
        (match primitiveMap (String.mk p.2) with
         | some code => [code]
         | none => 'L' :: dot2slash p.2 ++ [';'])

/-- `getJavaClassDesc` as a string. -/
def getJavaClassDesc (v : JsValue) : String :=
  String.mk (getJavaClassDescCh v)

/-- `exports.getJavaArgsDesc = args => args.map(arg => getJavaClassDesc(arg)).join('')`
(lib/utils.js line 110). -/
def getJavaArgsDesc (args : List JsValue) : String :=
  String.join (args.map getJavaClassDesc)

/-- The error message thrown by the `default` branch of
`desc2classArray` (lib/utils.js line 164). -/
def unknownClsMsg (s : String) : String :=
  "[double-remoting] unknown class type => " ++ s

/-- The primitive-letter cases of the `switch` in `desc2classArray`
(lib/utils.js lines 126-153), excluding the `L` reference case. -/
def primEntry : Char → Option String
  | 'V' => some "void"
  | 'Z' => some "boolean"
  | 'B' => some "byte"
  | 'C' => some "char"
  | 'D' => some "double"
  | 'F' => some "float"
  | 'I' => some "int"
  | 'J' => some "long"
  | 'S' => some "short"
  | _ => none

/-- The class-name scan of the `case 'L'` branch (lib/utils.js lines
156-159): `while (i < len && desc[++i] !== ';') clazz += desc[i]`.
Consumes up to and including the first `;`; when the descriptor ends
without one, JavaScript reads `desc[len]` as `undefined` and appends
the string "undefined" once before the `i < len` guard stops the loop. -/
def readLClass : List Char → List Char × List Char
  | [] => ("undefined".data, [])
  | c :: rest =>
      if c = ';' then ([], rest)
      else ((c :: (readLClass rest).1), (readLClass rest).2)

/-- `clazz.replace(/\//g, '.')` of lib/utils.js line 160. -/
def slash2dot (l : List Char) : String :=
  String.mk (l.map (fun c => if c = '/' then '.' else c))

theorem readLClass_len (l : List Char) : (readLClass l).2.length ≤ l.length := by
  induction l with
  | nil => simp [readLClass]
  | cons c rest ih =>
      by_cases h : c = ';' <;> simp [readLClass, h] <;> omega

/-- The scanning loop of `desc2classArray` (lib/utils.js lines 118-167):
one pass over the descriptor; a single leading `[` is remembered as a
prefix for the next element (`type = desc[++i]`, reading `undefined`
past the end); then the switch maps a primitive letter, scans an
`L...;` class name (converting `/` to `.`), or throws on any other
character - including a second `[`. -/
def d2caAux (l : List Char) : Except String (List String) :=
  match l with
  | [] => .ok []
  | c :: rest =>
    if c = '[' then
      match rest with
      | [] => .error (unknownClsMsg "undefined")
      | t :: rest2 =>
        match primEntry t with
        | some name => (d2caAux rest2).map (fun xs => ("[" ++ name) :: xs)
        | none =>
          if t = 'L' then
            (d2caAux (readLClass rest2).2).map
              (fun xs => ("[" ++ slash2dot (readLClass rest2).1) :: xs)
          else .error (unknownClsMsg (String.singleton t))
    else
      match primEntry c with
      | some name => (d2caAux rest).map (fun xs => name :: xs)
      | none =>
        if c = 'L' then
          (d2caAux (readLClass rest).2).map
            (fun xs => slash2dot (readLClass rest).1 :: xs)
        else .error (unknownClsMsg (String.singleton c))
termination_by l.length
decreasing_by
  all_goals simp
  all_goals first
    | omega
    | (have hlen := readLClass_len rest2; omega)
    | (have hlen := readLClass_len rest; omega)

/-- `exports.desc2classArray` (lib/utils.js lines 112-169): the empty
(falsy) descriptor yields `[]`; otherwise the scan runs. -/
def desc2classArray (desc : String) : Except String (List String) :=
  if desc = "" then .ok [] else d2caAux desc.data

/-- The value of `classEntryOf a` is the single type-list entry that
`desc2classArray` produces for the one-argument descriptor of `a`
(empty when the descriptor does not parse as exactly one entry). -/
def classEntryOf (a : JsValue) : String :=
  match desc2classArray (getJavaClassDesc a) with
  | .ok [e] => e
  | _ => ""

/-- An argument is `goodArg` when, if it carries a `$class` tag, the
effective class string has at most one leading `[` dimension and its
component name contains no `;`. All untagged argument kinds qualify. -/
def goodArg : JsValue → Bool
  | .vtagged cls abstractCls =>
      let p := stripDims (effectiveClass cls abstractCls).data
      p.1 ≤ 1 && p.2.all (fun c => c ≠ ';')
  | _ => true

/-- UTF-8 encoding of one character (the byte layout `putRawString` /
protobufjs string writes produce). -/
def charUtf8 (c : Char) : List Nat :=
  let n := c.toNat
  if n < 128 then [n]
  else if n < 2048 then [192 + n / 64, 128 + n % 64]
  else if n < 65536 then [224 + n / 4096, 128 + n / 64 % 64, 128 + n % 64]
  else [240 + n / 262144, 128 + n / 4096 % 64, 128 + n / 64 % 64, 128 + n % 64]

/-- UTF-8 bytes of a string. -/
def strUtf8 (s : String) : List Nat :=
  (s.data.map charUtf8).flatten

/-- Protobuf base-128 varint encoding of a length. -/
def varint (n : Nat) : List Nat :=
  if n < 128 then [n] else (n % 128 + 128) :: varint (n / 128)
termination_by n
decreasing_by omega

/-- Big-endian bytes of `writeInt32BE` for a non-negative value. -/
def int32be (n : Nat) : List Nat :=
  [n / 16777216 % 256, n / 65536 % 256, n / 256 % 256, n % 256]

/-- `buf.readInt32BE(off)`: four big-endian bytes read as a signed
32-bit integer. -/
def readInt32BE (buf : List Nat) (off : Nat) : Int :=
  if buf.getD off 0 * 16777216 + buf.getD (off + 1) 0 * 65536 +
      buf.getD (off + 2) 0 * 256 + buf.getD (off + 3) 0 < 2147483648
  then ((buf.getD off 0 * 16777216 + buf.getD (off + 1) 0 * 65536 +
      buf.getD (off + 2) 0 * 256 + buf.getD (off + 3) 0 : Nat) : Int)
  else ((buf.getD off 0 * 16777216 + buf.getD (off + 1) 0 * 65536 +
      buf.getD (off + 2) 0 * 256 + buf.getD (off + 3) 0 : Nat) : Int) - 4294967296

/-- `bytes.putLong(id)` (request.js line 81): the id, reduced to its
two's-complement 64-bit representative, written as 8 big-endian bytes
(equivalently: the high signed 32-bit word followed by the low word). -/
def putLongBytes (i : Int) : List Nat :=
  let u := (i % 18446744073709551616).toNat
  [u / 72057594037927936 % 256, u / 281474976710656 % 256, u / 1099511627776 % 256,
   u / 4294967296 % 256, u / 16777216 % 256, u / 65536 % 256, u / 256 % 256, u % 256]

/-- A `Long` as constructed in `Request.decode` lines 120-123:
`new Long(low, high)` from the two signed 32-bit reads. -/
structure LongPair where
  low : Int
  high : Int
  deriving DecidableEq, Repr

/-- `utils.handleLong` (hessian.js, an external dependency): converts
the Long to its numeric value - exactly `high * 2^32 + (low >>> 0)`.
hessian.js returns a JS number when the value is within the safe
integer range and the exact Long otherwise; either way the value is
preserved, so it is modelled as the exact integer. -/
def handleLong (p : LongPair) : Int :=
  p.high * 4294967296 + p.low % 4294967296

/-- `DUBBO_VERSION` (request.js line 28). -/
def DUBBO_VERSION : String := "2.5.3"

/-- Modelled from the spec: `Constants.DUBBO_VERSION_KEY` comes from
lib/const.js, which is absent from the sources; the attachment carries
the Dubbo protocol version under the standard `dubbo` key. -/
def DUBBO_VERSION_KEY : String := "dubbo"

/-- `Constants.PATH_KEY`: request.js line 156 accesses the same entry
as `attachments.path`, fixing the key to `path` (lib/const.js itself is
absent from the sources). -/
def PATH_KEY : String := "path"

/-- Modelled from the spec: `Constants.VERSION_KEY` comes from the
absent lib/const.js; the service version rides under `version`. -/
def VERSION_KEY : String := "version"

/-- An attachment value: the mapping carries strings and primitives
(numbers); `other` stands for any non-string non-number value. -/
inductive AttVal
  | str (s : String)
  | num (n : Int)
  | other
  deriving DecidableEq, Repr

/-- JavaScript truthiness of a possibly-absent attachment value. -/
def attTruthy : Option AttVal → Bool
  | none => false
  | some (.str s) => s ≠ ""
  | some (.num n) => n ≠ 0
  | some .other => true

/-- First-match lookup `m[k]` on an attachment mapping. -/
def attLookup (m : List (String × AttVal)) (k : String) : Option AttVal :=
  (m.find? (fun kv => kv.1 == k)).map (·.2)

/-- `v || d` for an attachment value with a string default (the
`attachments[key] || fallback` pattern of request.js lines 87-89). -/
def jsOrStr (v : Option AttVal) (d : String) : AttVal :=
  if attTruthy v then v.getD .other else .str d

/-- `v || ''` as used by the HashMap projections. -/
def jsOrEmptyStr (v : Option AttVal) : AttVal :=
  jsOrStr v ""

/-- The 4-key attachment projection of the proto-based `writeObject`
`'HashMap'` cases: protobuf-json driver (lib/serialize/protobuf-json
lines 149-155), the protobuf variant at lines 629-635, and the
protobuf-json variant in part_000 lines 158-167. Only `path`,
`interface`, `group` and `version` reach the wire, and `interface` is
assigned the `path` value. -/
def hashMapProjection4 (m : List (String × AttVal)) : List (String × AttVal) :=
  [("path", jsOrEmptyStr (attLookup m "path")),
   ("interface", jsOrEmptyStr (attLookup m "path")),
   ("group", jsOrEmptyStr (attLookup m "group")),
   ("version", jsOrEmptyStr (attLookup m "version"))]

/-- The all-keys attachment projection of the other protobuf variant's
`writeObject` `'HashMap'` case (lib/serialize/protobuf-json lines
417-426): `Object.entries(v)` filtered to string/number values, numbers
converted with `toString()`. -/
def hashMapProjectionAll (m : List (String × AttVal)) : List (String × AttVal) :=
  m.filterMap (fun kv =>
    match kv.2 with
    | .str s => some (kv.1, AttVal.str s)
    | .num n => some (kv.1, AttVal.str (toString n))
    | .other => none)

/-- Modelled from the spec: the tagged-binary (hessian) driver is absent
from the sources; its `writeObject` "has no such restriction and
serializes the full mapping". -/
def hessianHashMapWire (m : List (String × AttVal)) : List (String × AttVal) :=
  m

/-- Modelled from the spec: `utils.int2hex` is called by the recovery
paths of the protobuf driver but is missing from lib/utils.js; per the
spec the recovery prepends the byte length, so this produces the
big-endian byte string `Buffer.from(int2hex(n), 'hex')` decodes to. -/
def int2hexBytes (n : Nat) : List Nat :=
  if n < 256 then [n] else int2hexBytes (n / 256) ++ [n % 256]
termination_by n
decreasing_by omega

/-- `input.readObject` of the protobuf variant at lib/serialize/
protobuf-json lines 267-331 (typed path): `Msg.decode` on the raw bytes
first; only when that throws, `Msg.decodeDelimited` on the
length-prefixed bytes. The decode calls themselves live in protobufjs
and are passed in as oracles. -/
def readObject_tryDirect (dec delim : List Nat → Except Unit JsValue)
    (buf : List Nat) : Except Unit JsValue :=
  match dec buf with
  | .ok v => .ok v
  | .error _ => delim (int2hexBytes buf.length ++ buf)

/-- `input.readObject` of the protobuf variant at lines 515-546 and of
the protobuf-json variant in part_000 lines 64-99 (typed paths): the
buffer is unconditionally prefixed with `Buffer.from([buf.length])`
(one byte, the length mod 256) and decoded with `decodeDelimited`; no
direct decode is ever attempted. -/
def readObject_delimited (delim : List Nat → Except Unit JsValue)
    (buf : List Nat) : Except Unit JsValue :=
  delim ((buf.length % 256) :: buf)

/-- One serialization driver of the encode model: the tagged-binary
default and the two proto-based drivers whose sources are present. -/
inductive PDriver
  | hessian
  | protobuf
  | protobufJson
  deriving DecidableEq, Repr

/-- `output.contentTypeId` per driver. The numeric ids come from the
absent lib/serialize/const.js; modelled from the spec (tagged-binary is
"id 2, the default") and the standard Dubbo ids, consistent with
request.js line 128 treating 21 as a protobuf-family id. -/
def contentTypeId : PDriver → Nat
  | .hessian => 2
  | .protobuf => 22
  | .protobufJson => 21

/-- `getSerializationByName` (`nameToSerializations` of the registry):
the three implemented driver names; `protostuff` has no implementation
(commented out in one registry variant, a reserved unimplemented slot
in the other), so no driver results for it or any unknown name. -/
def nameToSerialization : String → Option PDriver
  | "hessian2" => some .hessian
  | "protobuf" => some .protobuf
  | "protobuf-json" => some .protobufJson
  | _ => none

/-- One driver-level write performed while encoding a request body:
`writeUTF` of a (possibly absent) attachment-or-header string,
`writeObject` of an argument value under a type tag, or `writeObject`
of the attachment mapping under a type tag. -/
inductive WriteOp
  | wUTF (v : Option AttVal)
  | wArg (v : Option JsValue) (typeTag : String)
  | wAtt (m : List (String × AttVal)) (typeTag : String)
  deriving Repr

/-- JavaScript truthiness of an argument value (the `if (v && ...)`
guard of the proto drivers' `writeObject`). -/
def jsTruthy : JsValue → Bool
  | .vnull => false
  | .vundef => false
  | .vbool b => b
  | .vnum n _ => n ≠ 0
  | .vstr s => s ≠ ""
  | _ => true

/-- Truthiness of the value carried by a write op. -/
def truthyOp : WriteOp → Bool
  | .wUTF v => attTruthy v
  | .wArg v _ => (v.map jsTruthy).getD false
  | .wAtt _ _ => true

/-- `Msg.encodeDelimited(Msg.create({value: v})).finish()` for the
inline `StringValue` wrapper of the protobuf driver's raw `writeUTF`
path (lib/serialize/protobuf-json lines 594-610): the proto3 message
is empty when the value is absent or the empty string, else field 1
(tag byte 0x0A) length-delimited; the whole message is then prefixed
with its own varint length. -/
def stringValueDelimited (v : Option AttVal) : List Nat :=
  match v with
  | some (.str s) =>
      if s = "" then [0]
      else
        let content := strUtf8 s
        let msg := 10 :: (varint content.length ++ content)
        varint msg.length ++ msg
  | _ => [0]

/-- An open encode session: the driver's `ByteBuffer` (`output.bytes`,
holding the 16 header bytes and anything `put` directly), and the
protobufjs `Writer` state - its `len` counter and the bytes its queued
ops will emit on `finish()`. -/
structure EncState where
  headerBytes : List Nat
  encLen : Nat
  encOps : List Nat
  deriving DecidableEq, Repr

/-- `encoder.bytes(b)` (protobufjs Writer): appends the varint byte
length followed by the bytes, increasing `len` accordingly. The bytes
`b` produced for the op by protobufjs/JSON serialization are supplied
by the oracle `enc`. -/
def pushEncoder (enc : WriteOp → List Nat) (st : EncState) (op : WriteOp) : EncState :=
  let b := enc op
  { st with
    encOps := st.encOps ++ (varint b.length ++ b),
    encLen := st.encLen + (varint b.length).length + b.length }

/-- The proto drivers' `writeObject`: writes only when the value is
truthy, `options.options` is present (typed mode) and `opts.proto` is
supplied; otherwise a silent no-op. -/
def objWrite (typed hasProto : Bool) (enc : WriteOp → List Nat)
    (st : EncState) (op : WriteOp) : EncState :=
  if typed && hasProto && truthyOp op then pushEncoder enc st op else st

/-- `encoder.putRawString(v)` of the byte module (an external
dependency): a string is laid down as its raw UTF-8 bytes; a falsy,
empty or non-string argument writes nothing. -/
def putRawStringBytes : Option AttVal → List Nat
  | some (.str s) => strUtf8 s
  | _ => []

/-- One driver write during `Request.encode`. The hessian driver
(absent from the sources) is modelled from the spec: the tagged-binary
encoding of the value is laid contiguously after the header in the
session buffer. The protobuf driver's `writeUTF` in raw mode (no
`options.options`) writes an inline length-delimited `StringValue`
directly after the header and bumps `encoder.len` by a constant 4; its
`writeObject` goes through the Writer. The protobuf-json driver
(lib/serialize/protobuf-json/index.js lines 94-180) shares its
ByteBuffer with the header (`output.bytes = encoder` in `serialize()`):
its raw `writeUTF` is `encoder.putRawString(v)`, its typed `writeUTF`
delegates to `writeObject`, and `writeObject` appends a JSON line
(bytes supplied by the oracle `enc`) when the value is truthy and
`options.options` with `opts.proto` are present, else writes nothing. -/
def applyDriverOp (drv : PDriver) (typed hasProto : Bool) (enc : WriteOp → List Nat)
    (st : EncState) (op : WriteOp) : Except CodecErr EncState :=
  match drv, op with
  | .hessian, op => .ok { st with headerBytes := st.headerBytes ++ enc op }
  | .protobuf, .wUTF v =>
      if typed then .ok (objWrite typed hasProto enc st (.wUTF v))
      else .ok { st with
                 headerBytes := st.headerBytes ++ stringValueDelimited v,
                 encLen := st.encLen + 4 }
  | .protobuf, op => .ok (objWrite typed hasProto enc st op)
  | .protobufJson, .wUTF v =>
      if typed then
        .ok { st with headerBytes :=
          st.headerBytes ++
            (if hasProto && truthyOp (WriteOp.wUTF v) then enc (WriteOp.wUTF v) else []) }
      else .ok { st with headerBytes := st.headerBytes ++ putRawStringBytes v }
  | .protobufJson, op =>
      .ok { st with headerBytes :=
        st.headerBytes ++ (if typed && hasProto && truthyOp op then enc op else []) }

/-- The `Invocation` payload: method name, ordered argument list,
attachment mapping. -/
structure Invocation where
  methodName : String
  args : List JsValue
  attachments : List (String × AttVal)

/-- A request payload: an Invocation, or any other value (the
`data instanceof Invocation` test of request.js line 85). -/
inductive ReqData
  | dInv (inv : Invocation)
  | dVal (v : JsValue)

/-- The `Request` fields that `encode` reads. -/
structure Request where
  id : Int
  isTwoWay : Bool
  isEvent : Bool
  data : ReqData

/-- The flag byte of request.js lines 72-78:
`FLAG_REQUEST | contentTypeId`, `| FLAG_TWOWAY` when two-way,
`| FLAG_EVENT` when an event. -/
def flagByte (drv : PDriver) (req : Request) : Nat :=
  let f := 128 ||| contentTypeId drv
  let f := if req.isTwoWay then f ||| 64 else f
  if req.isEvent then f ||| 32 else f

/-- The ordered body writes of request.js lines 85-106: for an
Invocation the dubbo version (attachment or default), path, version
(default `0.0.0`), method name, argument descriptor, one `writeObject`
per descriptor entry (indexing `args[i]`, which is `undefined` past the
end), then the attachments under `'HashMap'`; for a plain event the
single `'H'` marker; otherwise the value under `'AnyVal'`. -/
def bodyOps (req : Request) : Except CodecErr (List WriteOp) :=
  match req.data with
  | .dInv inv =>
      let desc := getJavaArgsDesc inv.args
      match desc2classArray desc with
      | .error e => .error (.unknownDescriptorChar e)
      | .ok types =>
          .ok ([.wUTF (some (jsOrStr (attLookup inv.attachments DUBBO_VERSION_KEY) DUBBO_VERSION)),
                .wUTF (attLookup inv.attachments PATH_KEY),
                .wUTF (some (jsOrStr (attLookup inv.attachments VERSION_KEY) "0.0.0")),
                .wUTF (some (.str inv.methodName)),
                .wUTF (some (.str desc))]
               ++ (List.range types.length).map
                    (fun i => .wArg inv.args[i]? (types.getD i ""))
               ++ [.wAtt inv.attachments "HashMap"])
  | .dVal v =>
      if req.isEvent then .ok [.wUTF (some (.str "H"))]
      else .ok [.wArg (some v) "AnyVal"]

/-- `bytes._bytes.writeInt32BE(bodyLen, 12)`: overwrite bytes 12-15. -/
def patch12 (l v : List Nat) : List Nat :=
  l.take 12 ++ v ++ l.drop 16

/-- `output.len` per driver: the protobuf driver reports the Writer's
`len`; the protobuf-json driver's getter returns `encoder.position()`
(lines 96-99), the offset of its shared ByteBuffer - the 16 header
bytes written into the same buffer included; the tagged-binary driver
(modelled from the spec) reports the running encoded length of its
session buffer. -/
def sessionLen : PDriver → EncState → Nat
  | .hessian, st => st.headerBytes.length
  | .protobuf, st => st.encLen
  | .protobufJson, st => st.headerBytes.length

/-- `encoder.finish()`: a buffer of size `len` filled by the queued
ops. When `len` was inflated past the queued bytes (the raw
`writeUTF`'s `encoder.len += 4` with nothing queued) the tail is
unwritten `allocUnsafe` memory, modelled as zeros; the `get()` branch
taken in that situation never reads the encoder. -/
def encoderFinish (st : EncState) : List Nat :=
  st.encOps.take st.encLen ++ List.replicate (st.encLen - st.encOps.length) 0

/-- `output.get()` per driver: hessian (modelled from the spec) returns
its contiguous session buffer; the protobuf variant returns only the
session buffer when raw writes pushed it past the 16 header bytes, else
header plus finished Writer output; the protobuf-json driver returns
`encoder._bytes.slice(0, encoder._offset)` (lines 103-106) - its whole
shared buffer, header and JSON-line body contiguous. -/
def sessionGet : PDriver → EncState → List Nat
  | .hessian, st => st.headerBytes
  | .protobuf, st =>
      if 16 < st.headerBytes.length then st.headerBytes
      else st.headerBytes ++ encoderFinish st
  | .protobufJson, st => st.headerBytes

/-- `Request.encode` (request.js lines 65-117): resolve the driver by
name (default `hessian2`), write magic, flag, status, packet id and the
4-byte length placeholder, run the body writes, compute the body length
(position delta past the header for the default codec name, the
driver-reported `len` otherwise), backpatch it at offset 12
(`writeInt32BE` throws above `2^31 - 1`), and return `output.get()`.
`typed` is whether `options.options` is present, `hasProto` whether
`options.options.proto` is; `enc` supplies the bytes protobufjs or JSON
serialization produces for each object write. -/
def Request.encode (enc : WriteOp → List Nat) (typed hasProto : Bool)
    (req : Request) (codecType : Option String) : Except CodecErr (List Nat) :=
  match nameToSerialization (codecType.getD "hessian2") with
  | none => .error .unknownCodec
  | some drv =>
    match bodyOps req with
    | .error e => .error e
    | .ok ops =>
      let st0 : EncState :=
        ⟨[218, 187, flagByte drv req, 0] ++ putLongBytes req.id ++ [0, 0, 0, 0], 0, []⟩
      match ops.foldlM (applyDriverOp drv typed hasProto enc) st0 with
      | .error e => .error e
      | .ok st =>
        let bodyLen := if codecType = some "hessian2" then st.headerBytes.length - 16
                       else sessionLen drv st
        if bodyLen < 2147483648 then
          .ok (sessionGet drv { st with headerBytes := patch12 st.headerBytes (int32be bodyLen) })
        else .error .lenOverflow

/-- A value produced by one driver read while decoding a body: a
string, a mapping (the `'HashMap'` read), or any other value
(numbers, `undefined`, structured replies), indexed for distinctness. -/
inductive DVal
  | dstr (s : String)
  | dmap (m : List (String × String))
  | dother (n : Nat)
  deriving DecidableEq, Repr

/-- Consume one generically read value from the body stream. -/
def readOne : List DVal → Except CodecErr (DVal × List DVal)
  | [] => .error .typeMismatch
  | v :: r => .ok (v, r)

/-- `input.readUTF`: the consumed value must be a string. -/
def readUTFD : List DVal → Except CodecErr (String × List DVal)
  | .dstr s :: r => .ok (s, r)
  | _ => .error .typeMismatch

/-- `input.readObject(options, 'HashMap')`: the consumed value must be
a mapping. -/
def readMapD : List DVal → Except CodecErr (List (String × String) × List DVal)
  | .dmap m :: r => .ok (m, r)
  | _ => .error .typeMismatch

/-- The argument loop of request.js lines 151-153: one generic read per
descriptor entry. -/
def readN (n : Nat) (l : List DVal) : Except CodecErr (List DVal × List DVal) :=
  match n, l with
  | 0, l => .ok ([], l)
  | _ + 1, [] => .error .typeMismatch
  | n + 1, v :: r => (readN n r).map (fun p => (v :: p.1, p.2))

/-- First-match lookup on a string mapping. -/
def strLookup (m : List (String × String)) (k : String) : Option String :=
  (m.find? (fun kv => kv.1 == k)).map (·.2)

/-- `Object.assign(attachments, extra)`: existing keys are overwritten
in place, new keys are appended in source order. -/
def assignMerge (base extra : List (String × String)) : List (String × String) :=
  base.map (fun kv => (kv.1, (strLookup extra kv.1).getD kv.2)) ++
  extra.filter (fun kv => !(base.any (fun b => b.1 == kv.1)))

/-- The invocation data object built by `Request.decode` lines 157-163. -/
structure DecodedInv where
  methodName : String
  serverSignature : String
  args : List DVal
  methodArgSigs : List String
  requestProps : List (String × String)
  deriving DecidableEq, Repr

/-- The `data` slot of a decoded packet: a plain value or an
invocation. -/
inductive PacketData
  | pdVal (v : DVal)
  | pdInv (inv : DecodedInv)
  deriving DecidableEq, Repr

/-- The packet object returned by `Request.decode` lines 169-179. -/
structure DecodedPacket where
  packetId : Int
  packetType : String
  data : PacketData
  codecTypeOut : String
  deriving DecidableEq, Repr

/-- The two registry variants in the sources: part_001 keeps the
protostuff slot commented out; part_002 registers it. -/
inductive SerVariant
  | v1
  | v2
  deriving DecidableEq, Repr

/-- A driver as resolved by the id registry. -/
inductive SerDrv
  | hessian
  | protobufJson
  | protobuf
  | protostuff
  deriving DecidableEq, Repr

/-- `getSerializationById` (part_001 / part_002 lines 22-41): the
id-keyed table. The numeric ids come from the absent
lib/serialize/const.js, modelled from the spec (hessian2 = 2, the
standard Dubbo protobuf-json/protobuf/protostuff ids 21/22/12,
consistent with request.js line 128 treating 21 as protobuf-family). -/
def getSerializationById : SerVariant → Nat → Option SerDrv
  | _, 2 => some .hessian
  | _, 21 => some .protobufJson
  | _, 22 => some .protobuf
  | .v2, 12 => some .protostuff
  | _, _ => none

/-- The serialization-id bits of the flag byte: `buf[2] & 0x1F`
(request.js line 126). -/
def sTypeOf (buf : List Nat) : Nat :=
  buf.getD 2 0 &&& 31

/-- The invocation parse of `Request.decode` lines 139-163, entered
when the first body field is a string: path, version, method name and
descriptor via `readUTF`, the descriptor expanded by `desc2classArray`,
one generic read per argument, the attachment map merged over the
initial `{dubbo: field, path}` entries, and the `serverSignature`
assembled from the merged `path` and the read version. -/
def decodeInvBody (packetId : Int) (codecTypeUsed : String) (field : String)
    (rest : List DVal) : Except CodecErr DecodedPacket :=
  match readUTFD rest with
  | .error e => .error e
  | .ok (path, r1) =>
    match readUTFD r1 with
    | .error e => .error e
    | .ok (ver, r2) =>
      match readUTFD r2 with
      | .error e => .error e
      | .ok (mname, r3) =>
        match readUTFD r3 with
        | .error e => .error e
        | .ok (desc, r4) =>
          match desc2classArray desc with
          | .error e => .error (.unknownDescriptorChar e)
          | .ok sigs =>
            match readN sigs.length r4 with
            | .error e => .error e
            | .ok (args, r5) =>
              match readMapD r5 with
              | .error e => .error e
              | .ok (att, _) =>
                let requestProps :=
                  assignMerge [(DUBBO_VERSION_KEY, field), (PATH_KEY, path)] att
                let sigPath := (strLookup requestProps PATH_KEY).getD ""
                let serverSignature := if ver ≠ "" then sigPath ++ ":" ++ ver else sigPath
                .ok ⟨packetId, "request",
                     .pdInv ⟨mname, serverSignature, args, sigs, requestProps⟩,
                     codecTypeUsed⟩

/-- `Request.decode` continued: the non-event branch of lines 137-166.
The first field is read generically and type-sniffed: a string starts
the invocation parse (`decodeInvBody`, lines 139-163); anything else is
returned as the packet data unchanged (line 165). -/
def decodeBody (packetId : Int) (codecTypeUsed : String)
    (body : List DVal) : Except CodecErr DecodedPacket :=
  match body with
  | [] => .error .typeMismatch
  | .dstr field :: rest => decodeInvBody packetId codecTypeUsed field rest
  | v :: _ => .ok ⟨packetId, "request", .pdVal v, codecTypeUsed⟩

/-- `Request.decode` (request.js lines 119-180): packet id from the two
32-bit halves, driver resolution from the masked flag byte (an
unregistered id fails - the JS crashes on `.deserialize` of
`undefined`; the protostuff slot of part_002 is a reserved
unimplemented module, modelled from the spec as failing explicitly),
then the event/heartbeat branch or `decodeBody` over the abstract
stream `body` of values the driver's reads produce after `skip(16)`. -/
def Request.decode (variant : SerVariant) (buf : List Nat) (body : List DVal)
    (optCodecType : Option String) : Except CodecErr DecodedPacket :=
  match getSerializationById variant (sTypeOf buf) with
  | none => .error .unknownCodec
  | some .protostuff => .error .unknownCodec
  | some _ =>
    if buf.getD 2 0 &&& 32 ≠ 0 then
      match body with
      | [] => .error .typeMismatch
      | d :: _ =>
          .ok ⟨handleLong ⟨readInt32BE buf 8, readInt32BE buf 4⟩, "heartbeat", .pdVal d,
               (if sTypeOf buf = 21 then some "protobuf" else optCodecType).getD "hessian2"⟩
    else
      decodeBody (handleLong ⟨readInt32BE buf 8, readInt32BE buf 4⟩)
        ((if sTypeOf buf = 21 then some "protobuf" else optCodecType).getD "hessian2") body

/-! ## Theorems

Descriptor translator: round-trip lemmas for `desc2classArray` over
descriptors produced by `getJavaArgsDesc`. -/

example : desc2classArray "ZI" = .ok ["boolean", "int"] := by
  simp [desc2classArray, d2caAux, primEntry, Except.map]

example : desc2classArray "Ljava/lang/String;Z" = .ok ["java.lang.String", "boolean"] := by
  simp [desc2classArray, d2caAux, primEntry, readLClass, slash2dot, Except.map]

theorem readLClass_append (cs : List Char) (rest : List Char)
    (h : ∀ c ∈ cs, c ≠ ';') : readLClass (cs ++ ';' :: rest) = (cs, rest) := by
  induction cs with
  | nil => simp [readLClass]
  | cons c tl ih =>
      have hc : c ≠ ';' := h c (by simp)
      have ih' := ih (fun x hx => h x (by simp [hx]))
      simp [readLClass, hc, ih']


theorem d2ca_prim (c : Char) (name : String) (rest : List Char)
    (hp : primEntry c = some name) (hb : c ≠ '[') :
    d2caAux (c :: rest) = (d2caAux rest).map (fun xs => name :: xs) := by
  rw [d2caAux.eq_def]
  simp [hb, hp]

theorem d2ca_L (cs rest : List Char) (h : ∀ c ∈ cs, c ≠ ';') :
    d2caAux ('L' :: (cs ++ ';' :: rest)) =
      (d2caAux rest).map (fun xs => slash2dot cs :: xs) := by
  rw [d2caAux.eq_def]
  simp [primEntry, readLClass_append cs rest h]

theorem d2ca_bracket_prim (t : Char) (name : String) (rest : List Char)
    (hp : primEntry t = some name) :
    d2caAux ('[' :: t :: rest) = (d2caAux rest).map (fun xs => ("[" ++ name) :: xs) := by
  rw [d2caAux.eq_def]
  simp [hp]

theorem d2ca_bracket_L (cs rest : List Char) (h : ∀ c ∈ cs, c ≠ ';') :
    d2caAux ('[' :: 'L' :: (cs ++ ';' :: rest)) =
      (d2caAux rest).map (fun xs => ("[" ++ slash2dot cs) :: xs) := by
  rw [d2caAux.eq_def]
  simp [primEntry, readLClass_append cs rest h]

theorem primEntry_of_primitiveMap {s : String} {c : Char}
    (h : primitiveMap s = some c) : (∃ nm, primEntry c = some nm) ∧ c ≠ '[' := by
  unfold primitiveMap at h
  split at h <;>
    first
      | (injection h with h; subst h; exact ⟨⟨_, rfl⟩, by decide⟩)
      | exact Option.noConfusion h

theorem dot2slash_no_semi (l : List Char) (h : l.all (fun c => c ≠ ';') = true) :
    ∀ c ∈ dot2slash l, c ≠ ';' := by
  intro c hc
  simp only [dot2slash, List.mem_map] at hc
  obtain ⟨a, ha, rfl⟩ := hc
  by_cases hd : a = '.'
  · simp [hd]
  · simp only [if_neg hd]
    exact of_decide_eq_true (List.all_eq_true.mp h a ha)

theorem getJavaClassDescCh_ne_nil (a : JsValue) : getJavaClassDescCh a ≠ [] := by
  cases a with
  | vnum n integral =>
      simp only [getJavaClassDescCh]
      split
      · simp
      · split <;> simp
  | vtagged cls abstractCls =>
      simp only [getJavaClassDescCh]
      cases hm : primitiveMap (String.mk (stripDims (effectiveClass cls abstractCls).data).2) <;>
        simp [hm]
  | vnull => decide
  | vundef => decide
  | vbool b => simp [getJavaClassDescCh]
  | vstr s => simp [getJavaClassDescCh]
  | vdate => decide
  | vbuffer => decide
  | varr => decide
  | verr => decide
  | vobj => decide

theorem d2ca_piece (a : JsValue) (h : goodArg a = true) :
    ∃ e, ∀ rest, d2caAux (getJavaClassDescCh a ++ rest) =
      (d2caAux rest).map (fun xs => e :: xs) := by
  cases a with
  | vnull => exact ⟨"java.lang.Object", fun rest => d2ca_L "java/lang/Object".data rest (by decide)⟩
  | vundef => exact ⟨"java.lang.Object", fun rest => d2ca_L "java/lang/Object".data rest (by decide)⟩
  | vbool b => exact ⟨"boolean", fun rest => d2ca_prim 'Z' "boolean" rest rfl (by decide)⟩
  | vstr s => exact ⟨"java.lang.String", fun rest => d2ca_L "java/lang/String".data rest (by decide)⟩
  | vnum n integral =>
      by_cases h1 : (integral && (decide (n < -2147483648) || decide (2147483647 < n))) = true
      · refine ⟨"long", fun rest => ?_⟩
        simp only [getJavaClassDescCh, if_pos h1]
        exact d2ca_prim 'J' "long" rest rfl (by decide)
      · by_cases h2 : integral = true
        · refine ⟨"int", fun rest => ?_⟩
          simp only [getJavaClassDescCh, if_neg h1, if_pos h2]
          exact d2ca_prim 'I' "int" rest rfl (by decide)
        · refine ⟨"double", fun rest => ?_⟩
          simp only [getJavaClassDescCh, if_neg h1, if_neg h2]
          exact d2ca_prim 'D' "double" rest rfl (by decide)
  | vdate => exact ⟨"java.util.Date", fun rest => d2ca_L "java/util/Date".data rest (by decide)⟩
  | vbuffer => exact ⟨"[byte", fun rest => d2ca_bracket_prim 'B' "byte" rest rfl⟩
  | varr => exact ⟨"java.util.ArrayList", fun rest => d2ca_L "java/util/ArrayList".data rest (by decide)⟩
  | verr => exact ⟨"java.lang.Exception", fun rest => d2ca_L "java/lang/Exception".data rest (by decide)⟩
  | vobj => exact ⟨"java.util.HashMap", fun rest => d2ca_L "java/util/HashMap".data rest (by decide)⟩
  | vtagged cls abstractCls =>
      simp only [goodArg, Bool.and_eq_true, decide_eq_true_eq] at h
      obtain ⟨hdim, hsemi⟩ := h
      rcases Nat.le_one_iff_eq_zero_or_eq_one.mp hdim with hdims | hdims
      · cases hm : primitiveMap (String.mk (stripDims (effectiveClass cls abstractCls).data).2) with
        | some code =>
            obtain ⟨⟨nm, hnm⟩, hcb⟩ := primEntry_of_primitiveMap hm
            refine ⟨nm, fun rest => ?_⟩
            simp only [getJavaClassDescCh, hm, hdims, List.replicate_zero, List.nil_append]
            exact d2ca_prim code nm rest hnm hcb
        | none =>
            refine ⟨slash2dot (dot2slash (stripDims (effectiveClass cls abstractCls).data).2),
                    fun rest => ?_⟩
            simp only [getJavaClassDescCh, hm, hdims, List.replicate_zero, List.nil_append,
              List.cons_append, List.append_assoc, List.singleton_append]
            exact d2ca_L (dot2slash (stripDims (effectiveClass cls abstractCls).data).2) rest
              (dot2slash_no_semi _ hsemi)
      · cases hm : primitiveMap (String.mk (stripDims (effectiveClass cls abstractCls).data).2) with
        | some code =>
            obtain ⟨⟨nm, hnm⟩, hcb⟩ := primEntry_of_primitiveMap hm
            refine ⟨"[" ++ nm, fun rest => ?_⟩
            simp only [getJavaClassDescCh, hm, hdims, List.replicate_one, List.singleton_append,
              List.cons_append]
            exact d2ca_bracket_prim code nm rest hnm
        | none =>
            refine ⟨"[" ++ slash2dot (dot2slash (stripDims (effectiveClass cls abstractCls).data).2),
                    fun rest => ?_⟩
            simp only [getJavaClassDescCh, hm, hdims, List.replicate_one, List.singleton_append,
              List.cons_append, List.append_assoc]
            exact d2ca_bracket_L (dot2slash (stripDims (effectiveClass cls abstractCls).data).2) rest
              (dot2slash_no_semi _ hsemi)

theorem classEntryOf_spec (a : JsValue) (e : String)
    (he : ∀ rest, d2caAux (getJavaClassDescCh a ++ rest) =
      (d2caAux rest).map (fun xs => e :: xs)) :
    classEntryOf a = e := by
  have h0 := he []
  rw [List.append_nil] at h0
  have hnil : d2caAux ([] : List Char) = .ok [] := by simp [d2caAux]
  rw [hnil] at h0
  unfold classEntryOf desc2classArray getJavaClassDesc
  by_cases hE : String.mk (getJavaClassDescCh a) = ""
  · exfalso
    exact getJavaClassDescCh_ne_nil a (congrArg String.data hE)
  · simp only [hE, if_false]
    rw [h0]
    rfl

theorem foldl_append_data (l : List String) (init : String) :
    (l.foldl (· ++ ·) init).data = init.data ++ (l.map String.data).flatten := by
  induction l generalizing init with
  | nil => simp
  | cons s tl ih => simp [List.foldl_cons, ih, String.data_append]

theorem join_data (l : List String) : (String.join l).data = (l.map String.data).flatten := by
  simpa [String.join] using foldl_append_data l ""

theorem argsDesc_data (args : List JsValue) :
    (getJavaArgsDesc args).data = (args.map getJavaClassDescCh).flatten := by
  unfold getJavaArgsDesc
  rw [join_data]
  congr 1
  simp [getJavaClassDesc, List.map_map]

theorem d2ca_args (args : List JsValue) (h : ∀ a ∈ args, goodArg a = true) :
    d2caAux (args.map getJavaClassDescCh).flatten = .ok (args.map classEntryOf) := by
  induction args with
  | nil => simp [d2caAux]
  | cons a tl ih =>
      obtain ⟨e, he⟩ := d2ca_piece a (h a (by simp))
      have hce : classEntryOf a = e := classEntryOf_spec a e he
      have ih' := ih (fun x hx => h x (by simp [hx]))
      simp only [List.map_cons, List.flatten_cons, he, ih', hce]
      rfl

theorem desc2classArray_of_good (args : List JsValue) (h : ∀ a ∈ args, goodArg a = true) :
    desc2classArray (getJavaArgsDesc args) = .ok (args.map classEntryOf) := by
  unfold desc2classArray
  by_cases hE : getJavaArgsDesc args = ""
  · rw [if_pos hE]
    cases args with
    | nil => rfl
    | cons a tl =>
        exfalso
        have hd := argsDesc_data (a :: tl)
        rw [hE] at hd
        have hnil : getJavaClassDescCh a ++ (tl.map getJavaClassDescCh).flatten = [] := by
          simpa using hd.symm
        exact getJavaClassDescCh_ne_nil a (List.append_eq_nil.mp hnil).1
  · rw [if_neg hE, argsDesc_data]
    exact d2ca_args args h

/-- C1 (amended): for every argument list whose `$class`-tagged entries
carry at most one leading `[` dimension and a `;`-free component name,
`desc2classArray (getJavaArgsDesc args)` succeeds with exactly
`args.length` entries, the i-th entry being the type decoded from the
i-th argument's signature (`classEntryOf`), in argument order. -/
theorem c1_descriptor_roundtrip (args : List JsValue) (h : ∀ a ∈ args, goodArg a = true) :
    desc2classArray (getJavaArgsDesc args) = .ok (args.map classEntryOf) ∧
    (args.map classEntryOf).length = args.length :=
  ⟨desc2classArray_of_good args h, by simp⟩

/-- C1 witness: the concrete argument list `[true, 42, "x", [..]]`
round-trips to `["boolean","int","java.lang.String","java.util.ArrayList"]`. -/
theorem c1_descriptor_roundtrip_witness :
    (∀ a ∈ [JsValue.vbool true, JsValue.vnum 42 true, JsValue.vstr "x", JsValue.varr],
        goodArg a = true) ∧
    desc2classArray (getJavaArgsDesc [JsValue.vbool true, JsValue.vnum 42 true,
        JsValue.vstr "x", JsValue.varr]) =
      .ok ["boolean", "int", "java.lang.String", "java.util.ArrayList"] := by
  have hg : ∀ a ∈ [JsValue.vbool true, JsValue.vnum 42 true, JsValue.vstr "x", JsValue.varr],
      goodArg a = true := by decide
  refine ⟨hg, ?_⟩
  have h := (c1_descriptor_roundtrip _ hg).1
  rw [h]
  have e1 : classEntryOf (JsValue.vbool true) = "boolean" := by
    simp [classEntryOf, desc2classArray, getJavaClassDesc, getJavaClassDescCh, d2caAux, primEntry]
    rfl
  have e2 : classEntryOf (JsValue.vnum 42 true) = "int" := by
    simp [classEntryOf, desc2classArray, getJavaClassDesc, getJavaClassDescCh, d2caAux, primEntry]
    rfl
  have e3 : classEntryOf (JsValue.vstr "x") = "java.lang.String" := by
    simp [classEntryOf, desc2classArray, getJavaClassDesc, getJavaClassDescCh, d2caAux,
      primEntry, readLClass, slash2dot]
    rfl
  have e4 : classEntryOf JsValue.varr = "java.util.ArrayList" := by
    simp [classEntryOf, desc2classArray, getJavaClassDesc, getJavaClassDescCh, d2caAux,
      primEntry, readLClass, slash2dot]
    rfl
  simp [e1, e2, e3, e4]

/-- C1 counterexample: the claim extends the round-trip to `$class`
tags with "one or more" leading `[` dimensions, but for two dimensions
(`$class: '[[int'`, descriptor `[[I`) `desc2classArray` throws
`unknown class type => [` instead of returning one entry, because the
scan consumes only a single `[` prefix per element. -/
theorem c1_counterexample :
    desc2classArray (getJavaArgsDesc [JsValue.vtagged "[[int" none]) =
      .error (unknownClsMsg "[") := by
  have h1 : getJavaArgsDesc [JsValue.vtagged "[[int" none] = "[[I" := by decide
  rw [h1]
  simp [desc2classArray, d2caAux, primEntry]
  decide

/-! Encode model: structural lemmas about `Request.encode`. -/

theorem exc_bind_ok {α β ε : Type} (a : α) (f : α → Except ε β) :
    (Except.ok a >>= f) = f a := rfl

theorem exc_bind_error {α β ε : Type} (e : ε) (f : α → Except ε β) :
    ((Except.error e : Except ε α) >>= f) = .error e := rfl

theorem objWrite_headerBytes (typed hp : Bool) (enc : WriteOp → List Nat)
    (st : EncState) (op : WriteOp) :
    (objWrite typed hp enc st op).headerBytes = st.headerBytes := by
  unfold objWrite pushEncoder
  split <;> rfl

theorem objWrite_inv (typed hp : Bool) (enc : WriteOp → List Nat)
    (st : EncState) (op : WriteOp) (h : st.encLen = st.encOps.length) :
    (objWrite typed hp enc st op).encLen = (objWrite typed hp enc st op).encOps.length := by
  unfold objWrite pushEncoder
  split <;> simp [h] <;> omega

theorem applyDriverOp_proto_typed (hp : Bool) (enc : WriteOp → List Nat)
    (st : EncState) (op : WriteOp) :
    applyDriverOp PDriver.protobuf true hp enc st op = .ok (objWrite true hp enc st op) := by
  cases op <;> simp [applyDriverOp]

theorem foldlM_proto_typed (hp : Bool)
    (enc : WriteOp → List Nat) (ops : List WriteOp) (st st' : EncState)
    (h : ops.foldlM (applyDriverOp PDriver.protobuf true hp enc) st = .ok st')
    (hinv : st.encLen = st.encOps.length) :
    st'.headerBytes = st.headerBytes ∧ st'.encLen = st'.encOps.length := by
  induction ops generalizing st with
  | nil =>
      simp only [List.foldlM] at h
      injection h with h
      subst h
      exact ⟨rfl, hinv⟩
  | cons op tl ih =>
      simp only [List.foldlM] at h
      rw [applyDriverOp_proto_typed hp enc st op, exc_bind_ok] at h
      have h1 := ih (objWrite true hp enc st op) h (objWrite_inv true hp enc st op hinv)
      exact ⟨by rw [h1.1, objWrite_headerBytes], h1.2⟩

theorem applyDriverOp_header_ext (drv : PDriver) (typed hp : Bool)
    (enc : WriteOp → List Nat) (st : EncState) (op : WriteOp) (st' : EncState)
    (h : applyDriverOp drv typed hp enc st op = .ok st') :
    ∃ e, st'.headerBytes = st.headerBytes ++ e := by
  cases drv with
  | hessian =>
      simp only [applyDriverOp] at h
      injection h with h
      exact ⟨enc op, by rw [← h]⟩
  | protobuf =>
      cases op with
      | wUTF v =>
          simp only [applyDriverOp] at h
          by_cases ht : typed = true
          · rw [if_pos ht] at h
            injection h with h
            exact ⟨[], by rw [← h, objWrite_headerBytes]; simp⟩
          · rw [if_neg ht] at h
            injection h with h
            exact ⟨stringValueDelimited v, by rw [← h]⟩
      | wArg v tag =>
          simp only [applyDriverOp] at h
          injection h with h
          exact ⟨[], by rw [← h, objWrite_headerBytes]; simp⟩
      | wAtt m tag =>
          simp only [applyDriverOp] at h
          injection h with h
          exact ⟨[], by rw [← h, objWrite_headerBytes]; simp⟩
  | protobufJson =>
      cases op with
      | wUTF v =>
          simp only [applyDriverOp] at h
          by_cases ht : typed = true
          · rw [if_pos ht] at h
            injection h with h
            exact ⟨(if hp && truthyOp (WriteOp.wUTF v) then enc (WriteOp.wUTF v) else []),
              by rw [← h]⟩
          · rw [if_neg ht] at h
            injection h with h
            exact ⟨putRawStringBytes v, by rw [← h]⟩
      | wArg v tag =>
          simp only [applyDriverOp] at h
          injection h with h
          exact ⟨(if typed && hp && truthyOp (WriteOp.wArg v tag)
            then enc (WriteOp.wArg v tag) else []), by rw [← h]⟩
      | wAtt m tag =>
          simp only [applyDriverOp] at h
          injection h with h
          exact ⟨(if typed && hp && truthyOp (WriteOp.wAtt m tag)
            then enc (WriteOp.wAtt m tag) else []), by rw [← h]⟩

theorem foldlM_header_ext (drv : PDriver) (typed hp : Bool) (enc : WriteOp → List Nat)
    (ops : List WriteOp) (st st' : EncState)
    (h : ops.foldlM (applyDriverOp drv typed hp enc) st = .ok st') :
    ∃ e, st'.headerBytes = st.headerBytes ++ e := by
  induction ops generalizing st with
  | nil =>
      simp only [List.foldlM] at h
      injection h with h
      exact ⟨[], by rw [← h]; simp⟩
  | cons op tl ih =>
      simp only [List.foldlM] at h
      cases hstep : applyDriverOp drv typed hp enc st op with
      | error e => rw [hstep, exc_bind_error] at h; exact absurd h (by simp)
      | ok st1 =>
          rw [hstep, exc_bind_ok] at h
          obtain ⟨e1, he1⟩ := applyDriverOp_header_ext drv typed hp enc st op st1 hstep
          obtain ⟨e2, he2⟩ := ih st1 h
          exact ⟨e1 ++ e2, by rw [he2, he1, List.append_assoc]⟩

theorem encode_ok_destruct (enc : WriteOp → List Nat) (typed hp : Bool) (req : Request)
    (ct : Option String) (buf : List Nat)
    (h : Request.encode enc typed hp req ct = .ok buf) :
    ∃ drv ops st,
      nameToSerialization (ct.getD "hessian2") = some drv ∧
      bodyOps req = .ok ops ∧
      ops.foldlM (applyDriverOp drv typed hp enc)
        ⟨[218, 187, flagByte drv req, 0] ++ putLongBytes req.id ++ [0, 0, 0, 0], 0, []⟩ = .ok st ∧
      (if ct = some "hessian2" then st.headerBytes.length - 16 else sessionLen drv st)
        < 2147483648 ∧
      buf = sessionGet drv { st with
        headerBytes :=
          patch12 st.headerBytes (int32be (if ct = some "hessian2"
            then st.headerBytes.length - 16 else sessionLen drv st)) } := by
  unfold Request.encode at h
  cases hn : nameToSerialization (ct.getD "hessian2") with
  | none => rw [hn] at h; exact absurd h (by simp)
  | some drv =>
    simp only [hn] at h
    cases hops : bodyOps req with
    | error e => simp only [hops] at h; exact absurd h (by simp)
    | ok ops =>
      simp only [hops] at h
      cases hfold : ops.foldlM (applyDriverOp drv typed hp enc)
          ⟨[218, 187, flagByte drv req, 0] ++ putLongBytes req.id ++ [0, 0, 0, 0], 0, []⟩ with
      | error e => simp only [hfold] at h; exact absurd h (by simp)
      | ok st =>
        simp only [hfold] at h
        by_cases hb : (if ct = some "hessian2" then st.headerBytes.length - 16
                       else sessionLen drv st) < 2147483648
        · rw [if_pos hb] at h
          injection h with h
          exact ⟨drv, ops, st, rfl, rfl, hfold, hb, h.symm⟩
        · rw [if_neg hb] at h
          exact absurd h (by simp)

theorem patch12_prefixed (f : Nat) (i : Int) (ext v : List Nat) :
    patch12 (([218, 187, f, 0] ++ (putLongBytes i ++ [0, 0, 0, 0])) ++ ext) v =
      ([218, 187, f, 0] ++ putLongBytes i) ++ (v ++ ext) := rfl

theorem putLongBytes_length (i : Int) : (putLongBytes i).length = 8 := rfl

theorem int32be_length (n : Nat) : (int32be n).length = 4 := rfl

theorem readInt32BE_at12 (f : Nat) (i : Int) (n : Nat) (hn : n < 2147483648)
    (rest : List Nat) :
    readInt32BE (([218, 187, f, 0] ++ putLongBytes i) ++ (int32be n ++ rest)) 12 = (n : Int) := by
  have g0 : (([218, 187, f, 0] ++ putLongBytes i) ++ (int32be n ++ rest)).getD 12 0 =
      n / 16777216 % 256 := rfl
  have g1 : (([218, 187, f, 0] ++ putLongBytes i) ++ (int32be n ++ rest)).getD 13 0 =
      n / 65536 % 256 := rfl
  have g2 : (([218, 187, f, 0] ++ putLongBytes i) ++ (int32be n ++ rest)).getD 14 0 =
      n / 256 % 256 := rfl
  have g3 : (([218, 187, f, 0] ++ putLongBytes i) ++ (int32be n ++ rest)).getD 15 0 =
      n % 256 := rfl
  unfold readInt32BE
  rw [g0, g1, g2, g3]
  split_ifs <;> omega

theorem readInt32BE_putLong_high (f : Nat) (i : Int) (tail : List Nat) :
    readInt32BE (([218, 187, f, 0] ++ putLongBytes i) ++ tail) 4 =
      (if (i % 18446744073709551616).toNat / 4294967296 < 2147483648
       then (((i % 18446744073709551616).toNat / 4294967296 : Nat) : Int)
       else (((i % 18446744073709551616).toNat / 4294967296 : Nat) : Int) - 4294967296) := by
  have g0 : (([218, 187, f, 0] ++ putLongBytes i) ++ tail).getD 4 0 =
      (i % 18446744073709551616).toNat / 72057594037927936 % 256 := rfl
  have g1 : (([218, 187, f, 0] ++ putLongBytes i) ++ tail).getD 5 0 =
      (i % 18446744073709551616).toNat / 281474976710656 % 256 := rfl
  have g2 : (([218, 187, f, 0] ++ putLongBytes i) ++ tail).getD 6 0 =
      (i % 18446744073709551616).toNat / 1099511627776 % 256 := rfl
  have g3 : (([218, 187, f, 0] ++ putLongBytes i) ++ tail).getD 7 0 =
      (i % 18446744073709551616).toNat / 4294967296 % 256 := rfl
  unfold readInt32BE
  rw [g0, g1, g2, g3]
  have hU : (i % 18446744073709551616).toNat < 18446744073709551616 := by omega
  have hsum : (i % 18446744073709551616).toNat / 72057594037927936 % 256 * 16777216 +
      (i % 18446744073709551616).toNat / 281474976710656 % 256 * 65536 +
      (i % 18446744073709551616).toNat / 1099511627776 % 256 * 256 +
      (i % 18446744073709551616).toNat / 4294967296 % 256 =
      (i % 18446744073709551616).toNat / 4294967296 := by omega
  rw [hsum]

theorem readInt32BE_putLong_low (f : Nat) (i : Int) (tail : List Nat) :
    readInt32BE (([218, 187, f, 0] ++ putLongBytes i) ++ tail) 8 =
      (if (i % 18446744073709551616).toNat % 4294967296 < 2147483648
       then (((i % 18446744073709551616).toNat % 4294967296 : Nat) : Int)
       else (((i % 18446744073709551616).toNat % 4294967296 : Nat) : Int) - 4294967296) := by
  have g0 : (([218, 187, f, 0] ++ putLongBytes i) ++ tail).getD 8 0 =
      (i % 18446744073709551616).toNat / 16777216 % 256 := rfl
  have g1 : (([218, 187, f, 0] ++ putLongBytes i) ++ tail).getD 9 0 =
      (i % 18446744073709551616).toNat / 65536 % 256 := rfl
  have g2 : (([218, 187, f, 0] ++ putLongBytes i) ++ tail).getD 10 0 =
      (i % 18446744073709551616).toNat / 256 % 256 := rfl
  have g3 : (([218, 187, f, 0] ++ putLongBytes i) ++ tail).getD 11 0 =
      (i % 18446744073709551616).toNat % 256 := rfl
  unfold readInt32BE
  rw [g0, g1, g2, g3]
  have hsum : (i % 18446744073709551616).toNat / 16777216 % 256 * 16777216 +
      (i % 18446744073709551616).toNat / 65536 % 256 * 65536 +
      (i % 18446744073709551616).toNat / 256 % 256 * 256 +
      (i % 18446744073709551616).toNat % 256 =
      (i % 18446744073709551616).toNat % 4294967296 := by omega
  rw [hsum]

theorem putLong_roundtrip (f : Nat) (i : Int) (tail : List Nat)
    (hlo : -9223372036854775808 ≤ i) (hhi : i < 9223372036854775808) :
    handleLong ⟨readInt32BE (([218, 187, f, 0] ++ putLongBytes i) ++ tail) 8,
                readInt32BE (([218, 187, f, 0] ++ putLongBytes i) ++ tail) 4⟩ = i := by
  have hmk : ∀ lo hi : Int, handleLong ⟨lo, hi⟩ = hi * 4294967296 + lo % 4294967296 :=
    fun lo hi => rfl
  rw [hmk, readInt32BE_putLong_low, readInt32BE_putLong_high]
  have hU : ((i % 18446744073709551616).toNat : Int) = i % 18446744073709551616 := by omega
  split_ifs <;> omega

theorem sessionGet_shape (drv : PDriver) (st : EncState) (P X : List Nat)
    (hh : st.headerBytes = P ++ X) :
    ∃ tail, sessionGet drv st = P ++ tail := by
  cases drv with
  | hessian =>
      simp only [sessionGet]
      exact ⟨X, hh⟩
  | protobuf =>
      simp only [sessionGet]
      split
      · exact ⟨X, hh⟩
      · exact ⟨X ++ encoderFinish st, by rw [hh, List.append_assoc]⟩
  | protobufJson =>
      simp only [sessionGet]
      exact ⟨X, hh⟩

theorem patch12_noext (f : Nat) (i : Int) (v : List Nat) :
    patch12 ([218, 187, f, 0] ++ (putLongBytes i ++ [0, 0, 0, 0])) v =
      ([218, 187, f, 0] ++ putLongBytes i) ++ v := by
  have h := patch12_prefixed f i [] v
  simpa using h

theorem take2_pl (f : Nat) (i : Int) (rest : List Nat) :
    ((([218, 187, f, 0] ++ putLongBytes i) ++ rest)).take 2 = [218, 187] := rfl

theorem encoderFinish_of_inv (st : EncState) (h : st.encLen = st.encOps.length) :
    encoderFinish st = st.encOps := by
  unfold encoderFinish
  rw [h]
  simp

theorem encode_ok_shape (enc : WriteOp → List Nat) (typed hp : Bool) (req : Request)
    (ct : Option String) (buf : List Nat)
    (h : Request.encode enc typed hp req ct = .ok buf) :
    ∃ drv tail, nameToSerialization (ct.getD "hessian2") = some drv ∧
      buf = ([218, 187, flagByte drv req, 0] ++ putLongBytes req.id) ++ tail := by
  obtain ⟨drv, ops, st, hn, hops, hfold, hlen, hbuf⟩ :=
    encode_ok_destruct enc typed hp req ct buf h
  obtain ⟨ext, hext0⟩ := foldlM_header_ext drv typed hp enc ops _ st hfold
  have hext : st.headerBytes =
      ([218, 187, flagByte drv req, 0] ++ (putLongBytes req.id ++ [0, 0, 0, 0])) ++ ext := hext0
  have hsh : ({ st with
      headerBytes :=
        patch12 st.headerBytes (int32be (if ct = some "hessian2"
          then st.headerBytes.length - 16 else sessionLen drv st)) } : EncState).headerBytes =
      ([218, 187, flagByte drv req, 0] ++ putLongBytes req.id) ++
        (int32be (if ct = some "hessian2" then st.headerBytes.length - 16
                  else sessionLen drv st) ++ ext) := by
    show patch12 st.headerBytes _ = _
    rw [hext]
    rw [patch12_prefixed]
  obtain ⟨tail, ht⟩ := sessionGet_shape drv _ _ _ hsh
  exact ⟨drv, tail, hn, by rw [hbuf, ht]⟩

theorem sessionGet_proto_16 (st : EncState)
    (h16 : st.headerBytes.length = 16) :
    sessionGet PDriver.protobuf st = st.headerBytes ++ encoderFinish st := by
  simp only [sessionGet]
  rw [if_neg (by omega)]

/-- C2 (amended): bytes 0-1 of every packet produced by
`Request.encode` are the magic pair 0xDA 0xBB. The signed 32-bit
big-endian value at offset 12 equals the exact number of payload bytes
following offset 16 when the configured codec name selects a driver
that counts its output exactly: the default tagged-binary driver named
as `hessian2`, or the `protobuf` driver in typed mode
(`options.options` present). Under the `protobuf-json` driver the
JSON-lines body shares one ByteBuffer with the 16 header bytes and
`output.len` reports `encoder.position()`, so the offset-12 field
equals the full buffer length - overstating the payload size by
exactly 16 on every packet; the `protobuf` driver's raw mode miscounts
a constant 4 per `writeUTF`. -/
theorem c2_header_invariant (enc : WriteOp → List Nat) (typed hp : Bool) (req : Request)
    (ct : Option String) (buf : List Nat)
    (h : Request.encode enc typed hp req ct = .ok buf) :
    buf.take 2 = [218, 187] ∧
    ((ct = some "hessian2" ∨ (typed = true ∧ ct = some "protobuf")) →
      readInt32BE buf 12 = (buf.length : Int) - 16) ∧
    (ct = some "protobuf-json" → readInt32BE buf 12 = (buf.length : Int)) := by
  obtain ⟨drv0, tail0, hn0, hshape0⟩ := encode_ok_shape enc typed hp req ct buf h
  refine ⟨by rw [hshape0]; exact take2_pl _ _ _, ?_, ?_⟩
  · intro hscope
    obtain ⟨drv, ops, st, hn, hops, hfold, hlen, hbuf⟩ :=
      encode_ok_destruct enc typed hp req ct buf h
    rcases hscope with hct | ⟨htyped, hct⟩
    · -- default codec name: body length is the position delta past the header
      subst hct
      have hdrv : drv = PDriver.hessian := by
        have h1 : nameToSerialization ((some "hessian2").getD "hessian2") =
            some PDriver.hessian := rfl
        exact (Option.some.inj (h1.symm.trans hn)).symm
      subst hdrv
      obtain ⟨ext, hext0⟩ := foldlM_header_ext PDriver.hessian typed hp enc ops _ st hfold
      have hext : st.headerBytes =
          ([218, 187, flagByte PDriver.hessian req, 0] ++
            (putLongBytes req.id ++ [0, 0, 0, 0])) ++ ext := hext0
      have hif : (if (some "hessian2" : Option String) = some "hessian2"
          then st.headerBytes.length - 16 else sessionLen PDriver.hessian st) =
          st.headerBytes.length - 16 := if_pos rfl
      rw [hif] at hlen hbuf
      have hlen16 : st.headerBytes.length = 16 + ext.length := by
        rw [hext]
        simp [putLongBytes_length]
        omega
      have hbl : st.headerBytes.length - 16 = ext.length := by omega
      rw [hbl] at hlen hbuf
      have hsg : sessionGet PDriver.hessian
          { st with headerBytes := patch12 st.headerBytes (int32be ext.length) } =
          patch12 st.headerBytes (int32be ext.length) := rfl
      rw [hsg, hext, patch12_prefixed] at hbuf
      subst hbuf
      rw [readInt32BE_at12 _ _ _ hlen]
      have hblen : (([218, 187, flagByte PDriver.hessian req, 0] ++ putLongBytes req.id) ++
          (int32be ext.length ++ ext)).length = 16 + ext.length := by
        simp [putLongBytes_length, int32be_length]
        omega
      rw [hblen]
      push_cast
      omega
    · -- protobuf driver in typed mode: body length is the Writer's len
      subst htyped
      subst hct
      have hdrv : drv = PDriver.protobuf := by
        have h1 : nameToSerialization ((some "protobuf").getD "hessian2") =
            some PDriver.protobuf := rfl
        exact (Option.some.inj (h1.symm.trans hn)).symm
      subst hdrv
      have hif : (if (some "protobuf" : Option String) = some "hessian2"
          then st.headerBytes.length - 16 else sessionLen PDriver.protobuf st) =
          st.encLen := by
        rw [if_neg (by decide)]
        rfl
      rw [hif] at hlen hbuf
      have hinv := foldlM_proto_typed hp enc ops _ st hfold rfl
      have hhdr : st.headerBytes =
          [218, 187, flagByte PDriver.protobuf req, 0] ++
            (putLongBytes req.id ++ [0, 0, 0, 0]) := hinv.1
      rw [hhdr, patch12_noext] at hbuf
      have h16 : (({ st with
          headerBytes := ([218, 187, flagByte PDriver.protobuf req, 0] ++ putLongBytes req.id) ++ int32be st.encLen } : EncState)).headerBytes.length = 16 := by
        show (([218, 187, flagByte PDriver.protobuf req, 0] ++ putLongBytes req.id) ++
          int32be st.encLen).length = 16
        simp [putLongBytes_length, int32be_length]
      rw [sessionGet_proto_16 _ h16] at hbuf
      have hfin : encoderFinish { st with
          headerBytes := ([218, 187, flagByte PDriver.protobuf req, 0] ++ putLongBytes req.id) ++ int32be st.encLen } = st.encOps := by
        have hsame : encoderFinish { st with
            headerBytes := ([218, 187, flagByte PDriver.protobuf req, 0] ++ putLongBytes req.id) ++ int32be st.encLen } = encoderFinish st := rfl
        rw [hsame, encoderFinish_of_inv st hinv.2]
      rw [hfin, List.append_assoc] at hbuf
      subst hbuf
      rw [readInt32BE_at12 _ _ _ hlen]
      have hblen : (([218, 187, flagByte PDriver.protobuf req, 0] ++ putLongBytes req.id) ++
          (int32be st.encLen ++ st.encOps)).length = 16 + st.encOps.length := by
        simp [putLongBytes_length, int32be_length]
        omega
      rw [hblen]
      have h2 := hinv.2
      push_cast
      omega
  · -- protobuf-json: len reports position(), header bytes included
    intro hct
    subst hct
    obtain ⟨drv, ops, st, hn, hops, hfold, hlen, hbuf⟩ :=
      encode_ok_destruct enc typed hp req (some "protobuf-json") buf h
    have hdrv : drv = PDriver.protobufJson := by
      have h1 : nameToSerialization ((some "protobuf-json").getD "hessian2") =
          some PDriver.protobufJson := rfl
      exact (Option.some.inj (h1.symm.trans hn)).symm
    subst hdrv
    obtain ⟨ext, hext0⟩ := foldlM_header_ext PDriver.protobufJson typed hp enc ops _ st hfold
    have hext : st.headerBytes =
        ([218, 187, flagByte PDriver.protobufJson req, 0] ++
          (putLongBytes req.id ++ [0, 0, 0, 0])) ++ ext := hext0
    have hif : (if (some "protobuf-json" : Option String) = some "hessian2"
        then st.headerBytes.length - 16 else sessionLen PDriver.protobufJson st) =
        st.headerBytes.length := by
      rw [if_neg (by decide)]
      rfl
    rw [hif] at hlen hbuf
    have hlen16 : st.headerBytes.length = 16 + ext.length := by
      rw [hext]
      simp [putLongBytes_length]
      omega
    rw [hlen16] at hlen hbuf
    have hsg : sessionGet PDriver.protobufJson
        { st with headerBytes := patch12 st.headerBytes (int32be (16 + ext.length)) } =
        patch12 st.headerBytes (int32be (16 + ext.length)) := rfl
    rw [hsg, hext, patch12_prefixed] at hbuf
    subst hbuf
    rw [readInt32BE_at12 _ _ _ hlen]
    have hblen : (([218, 187, flagByte PDriver.protobufJson req, 0] ++ putLongBytes req.id) ++
        (int32be (16 + ext.length) ++ ext)).length = 16 + ext.length := by
      simp [putLongBytes_length, int32be_length]
      omega
    rw [hblen]

theorem decodeInvBody_packetId (pid : Int) (ctu field : String) (rest : List DVal)
    (p : DecodedPacket) (h : decodeInvBody pid ctu field rest = .ok p) :
    p.packetId = pid := by
  unfold decodeInvBody at h
  cases h1 : readUTFD rest with
  | error e => simp only [h1] at h; exact absurd h (by simp)
  | ok pr1 =>
    obtain ⟨path, r1⟩ := pr1
    simp only [h1] at h
    cases h2 : readUTFD r1 with
    | error e => simp only [h2] at h; exact absurd h (by simp)
    | ok pr2 =>
      obtain ⟨ver, r2⟩ := pr2
      simp only [h2] at h
      cases h3 : readUTFD r2 with
      | error e => simp only [h3] at h; exact absurd h (by simp)
      | ok pr3 =>
        obtain ⟨mname, r3⟩ := pr3
        simp only [h3] at h
        cases h4 : readUTFD r3 with
        | error e => simp only [h4] at h; exact absurd h (by simp)
        | ok pr4 =>
          obtain ⟨desc, r4⟩ := pr4
          simp only [h4] at h
          cases h5 : desc2classArray desc with
          | error e => simp only [h5] at h; exact absurd h (by simp)
          | ok sigs =>
            simp only [h5] at h
            cases h6 : readN sigs.length r4 with
            | error e => simp only [h6] at h; exact absurd h (by simp)
            | ok pr6 =>
              obtain ⟨args, r5⟩ := pr6
              simp only [h6] at h
              cases h7 : readMapD r5 with
              | error e => simp only [h7] at h; exact absurd h (by simp)
              | ok pr7 =>
                obtain ⟨att, r6⟩ := pr7
                simp only [h7] at h
                injection h with h
                exact (congrArg DecodedPacket.packetId h).symm

theorem decodeBody_packetId (pid : Int) (ctu : String) (body : List DVal)
    (p : DecodedPacket) (h : decodeBody pid ctu body = .ok p) :
    p.packetId = pid := by
  unfold decodeBody at h
  cases body with
  | nil => exact absurd h (by simp)
  | cons v rest =>
      cases v with
      | dstr s => exact decodeInvBody_packetId pid ctu s rest p h
      | dmap m => injection h with h; exact (congrArg DecodedPacket.packetId h).symm
      | dother n => injection h with h; exact (congrArg DecodedPacket.packetId h).symm

theorem decode_ok_packetId (variant : SerVariant) (buf : List Nat) (body : List DVal)
    (oct : Option String) (p : DecodedPacket)
    (h : Request.decode variant buf body oct = .ok p) :
    p.packetId = handleLong ⟨readInt32BE buf 8, readInt32BE buf 4⟩ := by
  unfold Request.decode at h
  cases hreg : getSerializationById variant (sTypeOf buf) with
  | none => simp only [hreg] at h; exact absurd h (by simp)
  | some sd =>
    cases sd <;> simp only [hreg] at h <;>
      [skip; skip; skip; exact absurd h (by simp)] <;>
      (by_cases hflag : buf.getD 2 0 &&& 32 ≠ 0
       · rw [if_pos hflag] at h
         cases body with
         | nil => exact absurd h (by simp)
         | cons d rest =>
             injection h with h
             exact (congrArg DecodedPacket.packetId h).symm
       · rw [if_neg hflag] at h
         exact decodeBody_packetId _ _ _ _ h)

/-- C3 (confirmed): for every signed 64-bit packet id, including
negative values and magnitudes near 2^63, the id written by
`putLongBytes` as two big-endian 32-bit halves (high word at offset 4,
low word at offset 8 of the encoded packet) is reconstructed exactly by
the decoder's `handleLong (Long (readInt32BE 8) (readInt32BE 4))`
computation, under two's-complement 64-bit semantics; any successful
`Request.decode` of such a packet reports that exact id. -/
theorem c3_packet_id (enc : WriteOp → List Nat) (typed hp : Bool) (req : Request)
    (ct : Option String) (buf : List Nat)
    (h : Request.encode enc typed hp req ct = .ok buf)
    (h1 : -9223372036854775808 ≤ req.id) (h2 : req.id < 9223372036854775808) :
    handleLong ⟨readInt32BE buf 8, readInt32BE buf 4⟩ = req.id ∧
    (∀ variant body oct p, Request.decode variant buf body oct = .ok p →
      p.packetId = req.id) := by
  obtain ⟨drv, tail, hn, hshape⟩ := encode_ok_shape enc typed hp req ct buf h
  have hrt : handleLong ⟨readInt32BE buf 8, readInt32BE buf 4⟩ = req.id := by
    rw [hshape]
    exact putLong_roundtrip _ req.id tail h1 h2
  exact ⟨hrt, fun variant body oct p hd =>
    (decode_ok_packetId variant buf body oct p hd).trans hrt⟩

/-- C4 (confirmed): the flag byte at offset 2 of every encoded packet
has bit 7 set, bit 6 iff the request is two-way, bit 5 iff it is an
event, and its low 5 bits are the active driver's `contentTypeId`; the
decoder's `sTypeOf` mask (`buf[2] & 0x1F`) recovers exactly that id. -/
theorem c4_flag_byte (enc : WriteOp → List Nat) (typed hp : Bool) (req : Request)
    (ct : Option String) (buf : List Nat) (drv : PDriver)
    (hn : nameToSerialization (ct.getD "hessian2") = some drv)
    (h : Request.encode enc typed hp req ct = .ok buf) :
    (buf.getD 2 0).testBit 7 = true ∧
    (buf.getD 2 0).testBit 6 = req.isTwoWay ∧
    (buf.getD 2 0).testBit 5 = req.isEvent ∧
    buf.getD 2 0 % 32 = contentTypeId drv ∧
    sTypeOf buf = contentTypeId drv := by
  obtain ⟨drv', tail, hn', hshape⟩ := encode_ok_shape enc typed hp req ct buf h
  have hdd : drv' = drv := Option.some.inj (hn'.symm.trans hn)
  subst hdd
  have hb2 : buf.getD 2 0 = flagByte drv' req := by rw [hshape]; rfl
  have hst : sTypeOf buf = flagByte drv' req &&& 31 := by
    unfold sTypeOf
    rw [hb2]
  rw [hb2, hst]
  obtain ⟨i, tw, ev, data⟩ := req
  cases drv' <;> cases tw <;> cases ev <;> simp [flagByte, contentTypeId] <;> decide

/-- C2 witness: a concrete heartbeat encoded by the protobuf-json
driver carries the magic pair, and its offset-12 field equals the full
17-byte buffer length - 16 more than its single payload byte `H`. -/
theorem c2_header_invariant_witness :
    Request.encode (fun _ => []) false false ⟨1, true, true, .dVal .vnull⟩
      (some "protobuf-json") =
      .ok [218, 187, 245, 0, 0, 0, 0, 0, 0, 0, 0, 1, 0, 0, 0, 17, 72] ∧
    ([218, 187, 245, 0, 0, 0, 0, 0, 0, 0, 0, 1, 0, 0, 0, 17, 72] : List Nat).take 2 =
      [218, 187] ∧
    readInt32BE [218, 187, 245, 0, 0, 0, 0, 0, 0, 0, 0, 1, 0, 0, 0, 17, 72] 12 =
      (([218, 187, 245, 0, 0, 0, 0, 0, 0, 0, 0, 1, 0, 0, 0, 17, 72] : List Nat).length : Int) := by
  have henc : Request.encode (fun _ => []) false false ⟨1, true, true, .dVal .vnull⟩
      (some "protobuf-json") =
      .ok [218, 187, 245, 0, 0, 0, 0, 0, 0, 0, 0, 1, 0, 0, 0, 17, 72] := by
    simp [Request.encode, nameToSerialization, bodyOps, List.foldlM, applyDriverOp,
      putRawStringBytes, strUtf8, charUtf8, sessionLen, sessionGet, patch12,
      putLongBytes, int32be, flagByte, contentTypeId, exc_bind_ok]
  have hc := c2_header_invariant (fun _ => []) false false ⟨1, true, true, .dVal .vnull⟩
    (some "protobuf-json") _ henc
  exact ⟨henc, hc.1, hc.2.2 rfl⟩

/-- C2 counterexample: with the protobuf driver in raw (untyped) mode -
`options.options` absent - `Request.encode` still produces a packet,
but `writeUTF` bumps `encoder.len` by a constant 4 per field while
writing variable-size `StringValue` wrappers after the header, so the
32-bit value at offset 12 (here 20) differs from the actual payload
size after offset 16 (here 26). -/
theorem c2_counterexample :
    Request.encode (fun _ => []) false true
      ⟨1, true, false, .dInv ⟨"m", [], [("path", AttVal.str "ab")]⟩⟩ (some "protobuf") =
      .ok [218, 187, 214, 0, 0, 0, 0, 0, 0, 0, 0, 1, 0, 0, 0, 20,
           7, 10, 5, 50, 46, 53, 46, 51, 4, 10, 2, 97, 98,
           7, 10, 5, 48, 46, 48, 46, 48, 3, 10, 1, 109, 0] ∧
    readInt32BE [218, 187, 214, 0, 0, 0, 0, 0, 0, 0, 0, 1, 0, 0, 0, 20,
           7, 10, 5, 50, 46, 53, 46, 51, 4, 10, 2, 97, 98,
           7, 10, 5, 48, 46, 48, 46, 48, 3, 10, 1, 109, 0] 12 ≠
      (([218, 187, 214, 0, 0, 0, 0, 0, 0, 0, 0, 1, 0, 0, 0, 20,
           7, 10, 5, 50, 46, 53, 46, 51, 4, 10, 2, 97, 98,
           7, 10, 5, 48, 46, 48, 46, 48, 3, 10, 1, 109, 0] : List Nat).length : Int) - 16 := by
  constructor
  · have hops : bodyOps ⟨1, true, false, .dInv ⟨"m", [], [("path", AttVal.str "ab")]⟩⟩ =
        .ok [.wUTF (some (.str "2.5.3")), .wUTF (some (.str "ab")), .wUTF (some (.str "0.0.0")),
             .wUTF (some (.str "m")), .wUTF (some (.str "")),
             .wAtt [("path", AttVal.str "ab")] "HashMap"] := by
      simp [bodyOps, getJavaArgsDesc, desc2classArray, attLookup, jsOrStr, attTruthy,
        String.join, DUBBO_VERSION_KEY, PATH_KEY, VERSION_KEY, DUBBO_VERSION]
    have hsv1 : stringValueDelimited (some (.str "2.5.3")) = [7, 10, 5, 50, 46, 53, 46, 51] := by
      simp [stringValueDelimited, strUtf8, charUtf8, varint]
    have hsv2 : stringValueDelimited (some (.str "ab")) = [4, 10, 2, 97, 98] := by
      simp [stringValueDelimited, strUtf8, charUtf8, varint]
    have hsv3 : stringValueDelimited (some (.str "0.0.0")) = [7, 10, 5, 48, 46, 48, 46, 48] := by
      simp [stringValueDelimited, strUtf8, charUtf8, varint]
    have hsv4 : stringValueDelimited (some (.str "m")) = [3, 10, 1, 109] := by
      simp [stringValueDelimited, strUtf8, charUtf8, varint]
    have hsv5 : stringValueDelimited (some (.str "")) = [0] := by
      simp [stringValueDelimited]
    unfold Request.encode
    rw [hops]
    simp [List.foldlM, applyDriverOp, hsv1, hsv2, hsv3, hsv4, hsv5, objWrite, truthyOp,
      attTruthy, sessionLen, sessionGet, patch12, encoderFinish, putLongBytes, int32be,
      flagByte, contentTypeId, nameToSerialization, exc_bind_ok]
  · decide

/-- C3 witness: a negative packet id `-2` round-trips exactly through
the high/low 32-bit split of a concrete encoded packet. -/
theorem c3_packet_id_witness :
    Request.encode (fun _ => []) true true ⟨-2, true, true, .dVal .vnull⟩ (some "protobuf") =
      .ok [218, 187, 246, 0, 255, 255, 255, 255, 255, 255, 255, 254, 0, 0, 0, 1, 0] ∧
    handleLong ⟨readInt32BE [218, 187, 246, 0, 255, 255, 255, 255, 255, 255, 255, 254,
        0, 0, 0, 1, 0] 8,
      readInt32BE [218, 187, 246, 0, 255, 255, 255, 255, 255, 255, 255, 254,
        0, 0, 0, 1, 0] 4⟩ = -2 := by
  have henc : Request.encode (fun _ => []) true true ⟨-2, true, true, .dVal .vnull⟩
      (some "protobuf") =
      .ok [218, 187, 246, 0, 255, 255, 255, 255, 255, 255, 255, 254, 0, 0, 0, 1, 0] := by
    simp [Request.encode, nameToSerialization, bodyOps, List.foldlM, applyDriverOp, objWrite,
      truthyOp, attTruthy, pushEncoder, varint, sessionLen, sessionGet, patch12, encoderFinish,
      putLongBytes, int32be, flagByte, contentTypeId, exc_bind_ok]
  exact ⟨henc, (c3_packet_id (fun _ => []) true true ⟨-2, true, true, .dVal .vnull⟩
    (some "protobuf") _ henc (by decide) (by decide)).1⟩

/-- C4 witness: a concrete event request over the protobuf-json driver
carries flag byte 245 = 0x80 | 0x40 | 0x20 | 21, and the decode mask
recovers the driver's contentTypeId 21. -/
theorem c4_flag_byte_witness :
    Request.encode (fun _ => []) true true ⟨3, true, true, .dVal .vnull⟩ (some "protobuf-json") =
      .ok [218, 187, 245, 0, 0, 0, 0, 0, 0, 0, 0, 3, 0, 0, 0, 16] ∧
    (([218, 187, 245, 0, 0, 0, 0, 0, 0, 0, 0, 3, 0, 0, 0, 16] : List Nat).getD 2 0).testBit 7
      = true ∧
    sTypeOf [218, 187, 245, 0, 0, 0, 0, 0, 0, 0, 0, 3, 0, 0, 0, 16] =
      contentTypeId PDriver.protobufJson := by
  have henc : Request.encode (fun _ => []) true true ⟨3, true, true, .dVal .vnull⟩
      (some "protobuf-json") = .ok [218, 187, 245, 0, 0, 0, 0, 0, 0, 0, 0, 3, 0, 0, 0, 16] := by
    simp [Request.encode, nameToSerialization, bodyOps, List.foldlM, applyDriverOp,
      truthyOp, attTruthy, sessionLen, sessionGet, patch12,
      putLongBytes, int32be, flagByte, contentTypeId, exc_bind_ok]
  have hc := c4_flag_byte (fun _ => []) true true ⟨3, true, true, .dVal .vnull⟩
    (some "protobuf-json") _ PDriver.protobufJson rfl henc
  exact ⟨henc, hc.1, hc.2.2.2.2⟩

theorem range_map_wArg (args : List JsValue) (ts : List String) (h : ts.length = args.length) :
    (List.range ts.length).map (fun i => WriteOp.wArg args[i]? (ts.getD i "")) =
      List.zipWith (fun a t => WriteOp.wArg (some a) t) args ts := by
  induction args generalizing ts with
  | nil =>
      have hts : ts = [] := List.length_eq_zero.mp h
      subst hts
      simp
  | cons a tl ih =>
      cases ts with
      | nil => simp at h
      | cons t tts =>
          have hh : tts.length = tl.length := by simpa using h
          rw [List.length_cons, List.range_succ_eq_map]
          simp only [List.map_cons, List.map_map, List.zipWith_cons_cons]
          congr 1
          · simp
          · rw [← ih tts hh]
            apply List.map_congr_left
            intro i _
            simp

/-- C8 (confirmed): for an Invocation payload, the body writes happen
in exactly the order: dubbo protocol version (attachment value or the
`2.5.3` default), service path (raw attachment value), service version
(default `0.0.0`), method name, the argument-type descriptor string,
one `writeObject` per argument tagged with the corresponding entry of
the descriptor's type list, and finally the full attachment mapping
under the `HashMap` tag. -/
theorem c8_invocation_body_order (req : Request) (inv : Invocation)
    (hdata : req.data = .dInv inv)
    (hgood : ∀ a ∈ inv.args, goodArg a = true) :
    bodyOps req = .ok
      ([.wUTF (some (jsOrStr (attLookup inv.attachments DUBBO_VERSION_KEY) DUBBO_VERSION)),
        .wUTF (attLookup inv.attachments PATH_KEY),
        .wUTF (some (jsOrStr (attLookup inv.attachments VERSION_KEY) "0.0.0")),
        .wUTF (some (.str inv.methodName)),
        .wUTF (some (.str (getJavaArgsDesc inv.args)))]
       ++ List.zipWith (fun a t => WriteOp.wArg (some a) t) inv.args (inv.args.map classEntryOf)
       ++ [.wAtt inv.attachments "HashMap"]) := by
  unfold bodyOps
  rw [hdata]
  simp only [desc2classArray_of_good inv.args hgood]
  rw [range_map_wArg inv.args (inv.args.map classEntryOf) (by simp)]

/-- C8 witness: the body write sequence for a concrete one-argument
invocation. -/
theorem c8_invocation_body_order_witness :
    bodyOps ⟨7, true, false, .dInv ⟨"sayHello", [JsValue.vstr "world"],
        [("path", AttVal.str "com.example.Greeter")]⟩⟩ =
      .ok [.wUTF (some (.str "2.5.3")),
           .wUTF (some (.str "com.example.Greeter")),
           .wUTF (some (.str "0.0.0")),
           .wUTF (some (.str "sayHello")),
           .wUTF (some (.str "Ljava/lang/String;")),
           .wArg (some (.vstr "world")) "java.lang.String",
           .wAtt [("path", AttVal.str "com.example.Greeter")] "HashMap"] := by
  have h := c8_invocation_body_order
    ⟨7, true, false, .dInv ⟨"sayHello", [JsValue.vstr "world"],
        [("path", AttVal.str "com.example.Greeter")]⟩⟩
    ⟨"sayHello", [JsValue.vstr "world"], [("path", AttVal.str "com.example.Greeter")]⟩
    rfl (by decide)
  rw [h]
  have e1 : classEntryOf (JsValue.vstr "world") = "java.lang.String" := by
    simp [classEntryOf, desc2classArray, getJavaClassDesc, getJavaClassDescCh, d2caAux,
      primEntry, readLClass, slash2dot]
    rfl
  simp [e1, attLookup, jsOrStr, attTruthy, DUBBO_VERSION_KEY, PATH_KEY, VERSION_KEY,
    DUBBO_VERSION, getJavaArgsDesc, getJavaClassDesc, getJavaClassDescCh, String.join]

/-- C5 (confirmed): when the serialization id carried in the flag byte
has no usable registered driver - any unregistered id under either
registry variant, and the reserved protostuff id (present in the
part_002 table but unimplemented, modelled from the spec as failing) -
`Request.decode` fails with `unknownCodec` and never substitutes a
default driver. -/
theorem c5_unknown_codec (variant : SerVariant) (buf : List Nat) (body : List DVal)
    (oct : Option String)
    (h : getSerializationById variant (sTypeOf buf) = none ∨
         getSerializationById variant (sTypeOf buf) = some SerDrv.protostuff) :
    Request.decode variant buf body oct = .error .unknownCodec := by
  unfold Request.decode
  rcases h with h | h <;> rw [h]

/-- C5 witness: id 12 (protostuff) under the part_002 registry and the
unregistered id 9 under the part_001 registry both fail with
`unknownCodec`. -/
theorem c5_unknown_codec_witness :
    getSerializationById SerVariant.v2 (sTypeOf [0, 0, 12]) = some SerDrv.protostuff ∧
    Request.decode SerVariant.v2 [0, 0, 12] [] none = .error .unknownCodec ∧
    getSerializationById SerVariant.v1 (sTypeOf [0, 0, 9]) = none ∧
    Request.decode SerVariant.v1 [0, 0, 9] [] none = .error .unknownCodec :=
  ⟨rfl, c5_unknown_codec SerVariant.v2 [0, 0, 12] [] none (Or.inr rfl),
   rfl, c5_unknown_codec SerVariant.v1 [0, 0, 9] [] none (Or.inl rfl)⟩

theorem readN_exact (l rest : List DVal) : readN l.length (l ++ rest) = .ok (l, rest) := by
  induction l with
  | nil => rfl
  | cons v tl ih =>
      simp [readN, ih]
      rfl

/-- C7 (confirmed): for every successful decode, if the event bit of
the flag byte is set the packet kind is `heartbeat` and its data is the
one generically read value; otherwise the first field is type-sniffed -
a non-string first value is returned unchanged as the packet data,
while a string first field starts the invocation parse whose
`serverSignature` is the merged attachment `path` alone when the read
version is empty and `path ++ ":" ++ version` otherwise. -/
theorem c7_decode_body (variant : SerVariant) (buf : List Nat) (body : List DVal)
    (oct : Option String) (p : DecodedPacket)
    (h : Request.decode variant buf body oct = .ok p) :
    ((buf.getD 2 0 &&& 32 ≠ 0) →
        p.packetType = "heartbeat" ∧ ∃ d r, body = d :: r ∧ p.data = .pdVal d) ∧
    ((buf.getD 2 0 &&& 32 = 0) → ∀ d r, body = d :: r → (∀ s, d ≠ .dstr s) →
        p.packetType = "request" ∧ p.data = .pdVal d) ∧
    ((buf.getD 2 0 &&& 32 = 0) →
      ∀ field path ver mname dsc argvals att extra sigs,
        body = .dstr field :: .dstr path :: .dstr ver :: .dstr mname :: .dstr dsc ::
          (argvals ++ .dmap att :: extra) →
        desc2classArray dsc = .ok sigs →
        argvals.length = sigs.length →
        p.packetType = "request" ∧
        p.data = .pdInv ⟨mname,
          (if ver ≠ "" then
            ((strLookup (assignMerge [(DUBBO_VERSION_KEY, field), (PATH_KEY, path)] att)
              PATH_KEY).getD "") ++ ":" ++ ver
           else ((strLookup (assignMerge [(DUBBO_VERSION_KEY, field), (PATH_KEY, path)] att)
              PATH_KEY).getD "")),
          argvals, sigs,
          assignMerge [(DUBBO_VERSION_KEY, field), (PATH_KEY, path)] att⟩) := by
  unfold Request.decode at h
  cases hreg : getSerializationById variant (sTypeOf buf) with
  | none => simp only [hreg] at h; exact absurd h (by simp)
  | some sd =>
    cases sd <;> simp only [hreg] at h <;>
      [skip; skip; skip; exact absurd h (by simp)] <;>
      (by_cases hflag : buf.getD 2 0 &&& 32 ≠ 0
       · rw [if_pos hflag] at h
         refine ⟨fun _ => ?_, fun h0 => absurd h0 hflag, fun h0 => absurd h0 hflag⟩
         cases body with
         | nil => exact absurd h (by simp)
         | cons d r =>
             injection h with h
             exact ⟨(congrArg DecodedPacket.packetType h).symm, d, r, rfl,
               (congrArg DecodedPacket.data h).symm⟩
       · rw [if_neg hflag] at h
         push_neg at hflag
         refine ⟨fun hf => absurd hflag hf, fun _ d r hbody hnstr => ?_, ?_⟩
         · subst hbody
           unfold decodeBody at h
           cases d with
           | dstr s => exact absurd rfl (hnstr s)
           | dmap m =>
               injection h with h
               exact ⟨(congrArg DecodedPacket.packetType h).symm,
                 (congrArg DecodedPacket.data h).symm⟩
           | dother n =>
               injection h with h
               exact ⟨(congrArg DecodedPacket.packetType h).symm,
                 (congrArg DecodedPacket.data h).symm⟩
         · intro _ field path ver mname dsc argvals att extra sigs hbody hdesc hlen
           subst hbody
           unfold decodeBody decodeInvBody at h
           simp only [readUTFD, hdesc, ← hlen, readN_exact, readMapD] at h
           injection h with h
           exact ⟨(congrArg DecodedPacket.packetType h).symm,
             (congrArg DecodedPacket.data h).symm⟩)

/-- C7 witness: decoding a concrete non-event body whose first field is
a string yields an invocation packet with `serverSignature =
"com.ex:1.0"` (path joined with the nonempty version). -/
theorem c7_decode_body_witness :
    Request.decode SerVariant.v1 [0, 0, 2]
      [.dstr "2.0.2", .dstr "com.ex", .dstr "1.0", .dstr "say", .dstr "",
       .dmap [("k", "v")]] none =
      .ok ⟨0, "request",
           .pdInv ⟨"say", "com.ex:1.0", [], [],
             [("dubbo", "2.0.2"), ("path", "com.ex"), ("k", "v")]⟩,
           "hessian2"⟩ ∧
    (∀ p, Request.decode SerVariant.v1 [0, 0, 2]
      [.dstr "2.0.2", .dstr "com.ex", .dstr "1.0", .dstr "say", .dstr "",
       .dmap [("k", "v")]] none = .ok p →
      p.packetType = "request" ∧
      p.data = .pdInv ⟨"say", "com.ex:1.0", [], [],
        [("dubbo", "2.0.2"), ("path", "com.ex"), ("k", "v")]⟩) := by
  have hdec : Request.decode SerVariant.v1 [0, 0, 2]
      [.dstr "2.0.2", .dstr "com.ex", .dstr "1.0", .dstr "say", .dstr "",
       .dmap [("k", "v")]] none =
      .ok ⟨0, "request",
           .pdInv ⟨"say", "com.ex:1.0", [], [],
             [("dubbo", "2.0.2"), ("path", "com.ex"), ("k", "v")]⟩,
           "hessian2"⟩ := rfl
  refine ⟨hdec, fun p hp => ?_⟩
  have hc := (c7_decode_body SerVariant.v1 [0, 0, 2]
      [.dstr "2.0.2", .dstr "com.ex", .dstr "1.0", .dstr "say", .dstr "",
       .dmap [("k", "v")]] none p hp).2.2
  have hres := hc (by decide) "2.0.2" "com.ex" "1.0" "say" "" [] [("k", "v")] [] [] rfl rfl rfl
  refine ⟨hres.1, ?_⟩
  rw [hres.2]
  simp [assignMerge, strLookup, DUBBO_VERSION_KEY, PATH_KEY]

/-- C6 counterexample: the protobuf variant at lines 399-440 serializes
the attachment mapping by iterating all string/number-valued entries,
so an arbitrary key (`token`) reaches the wire of a proto-based driver,
contradicting the claim that only the four well-known keys ever do. -/
theorem c6_counterexample :
    ("token", AttVal.str "x") ∈
      hashMapProjectionAll [("path", AttVal.str "p"), ("token", AttVal.str "x")] ∧
    ("token" : String) ∉ (["path", "interface", "group", "version"] : List String) := by
  constructor
  · simp [hashMapProjectionAll]
  · decide

/-- C6 (amended): the two protobuf-json drivers and the 4-key protobuf
variant project the attachment mapping onto exactly the keys `path`,
`interface`, `group`, `version` (in that order, everything else
dropped); the other protobuf variant instead keeps every
string-valued entry; the tagged-binary driver (modelled from the spec)
serializes the full mapping. -/
theorem c6_hashmap_projection (m : List (String × AttVal)) :
    (hashMapProjection4 m).map Prod.fst = ["path", "interface", "group", "version"] ∧
    hessianHashMapWire m = m ∧
    (∀ k s, (k, AttVal.str s) ∈ m → (k, AttVal.str s) ∈ hashMapProjectionAll m) := by
  refine ⟨rfl, rfl, fun k s hm => ?_⟩
  simp only [hashMapProjectionAll, List.mem_filterMap]
  exact ⟨(k, AttVal.str s), hm, rfl⟩

/-- C6 witness: a custom string-valued key survives the all-keys
protobuf projection at a concrete mapping. -/
theorem c6_hashmap_projection_witness :
    (hashMapProjection4 [("path", AttVal.str "p"), ("extra", AttVal.str "x")]).map Prod.fst =
      ["path", "interface", "group", "version"] ∧
    ("extra", AttVal.str "x") ∈
      hashMapProjectionAll [("path", AttVal.str "p"), ("extra", AttVal.str "x")] := by
  have hc := c6_hashmap_projection [("path", AttVal.str "p"), ("extra", AttVal.str "x")]
  exact ⟨hc.1, hc.2.2 "extra" "x" (by simp)⟩

/-- C10 counterexample: under the all-keys protobuf projection the wire
`interface` field keeps the attachment's own `interface` value, so it
differs from the wire `path` field. -/
theorem c10_counterexample :
    attLookup (hashMapProjectionAll [("path", AttVal.str "a"), ("interface", AttVal.str "b")])
      "interface" = some (AttVal.str "b") ∧
    attLookup (hashMapProjectionAll [("path", AttVal.str "a"), ("interface", AttVal.str "b")])
      "path" = some (AttVal.str "a") ∧
    some (AttVal.str "b") ≠ some (AttVal.str "a") := by
  refine ⟨?_, ?_, ?_⟩ <;> simp [hashMapProjectionAll, attLookup, List.find?]

/-- C10 (amended): in the three 4-key projections (both protobuf-json
drivers and the 4-key protobuf variant) the wire `interface` field is
assigned the attachment's `path` value (or the empty string), never the
attachment's own `interface` entry, and always equals the wire `path`
field; the all-keys protobuf variant passes the attachment's own
`interface` through. -/
theorem c10_interface_field (m : List (String × AttVal)) :
    attLookup (hashMapProjection4 m) "interface" = some (jsOrEmptyStr (attLookup m "path")) ∧
    attLookup (hashMapProjection4 m) "interface" = attLookup (hashMapProjection4 m) "path" := by
  constructor <;> simp [hashMapProjection4, attLookup, List.find?]

/-- C9 counterexample: the typed `readObject` of the protobuf variant
at lines 515-546 (and the protobuf-json variant) decodes
length-delimited unconditionally: even when a direct decode would
succeed with a different value, the result is the delimited decode -
the fallback is the first and only choice there. -/
theorem c9_counterexample :
    readObject_delimited (fun _ => .ok (.vstr "delimited")) [42] =
      .ok (JsValue.vstr "delimited") ∧
    readObject_tryDirect (fun _ => .ok (.vstr "direct")) (fun _ => .ok (.vstr "delimited"))
      [42] = .ok (JsValue.vstr "direct") ∧
    (Except.ok (JsValue.vstr "delimited") : Except Unit JsValue) ≠ .ok (.vstr "direct") := by
  refine ⟨rfl, rfl, ?_⟩
  simp

/-- C9 (amended): the protobuf variant at lines 267-331 attempts the
direct decode first and falls back to length-delimited decoding of the
length-prefixed buffer only when the direct decode throws; the typed
`readObject` of the variant at lines 515-546 and of the protobuf-json
variant instead always prepends the single length byte and decodes
length-delimited, never attempting a direct decode. -/
theorem c9_readObject_policy :
    (∀ (dec delim : List Nat → Except Unit JsValue) (buf : List Nat) (v : JsValue),
        dec buf = .ok v → readObject_tryDirect dec delim buf = .ok v) ∧
    (∀ (dec delim : List Nat → Except Unit JsValue) (buf : List Nat) (e : Unit),
        dec buf = .error e →
        readObject_tryDirect dec delim buf = delim (int2hexBytes buf.length ++ buf)) ∧
    (∀ (delim : List Nat → Except Unit JsValue) (buf : List Nat),
        readObject_delimited delim buf = delim ((buf.length % 256) :: buf)) := by
  refine ⟨fun dec delim buf v h => ?_, fun dec delim buf e h => ?_, fun delim buf => rfl⟩
  · unfold readObject_tryDirect
    rw [h]
  · unfold readObject_tryDirect
    rw [h]

/-- C9 witness: the direct-first policy at concrete oracles - a
succeeding direct decode is returned as-is, a throwing one triggers the
length-prefixed delimited decode. -/
theorem c9_readObject_policy_witness :
    readObject_tryDirect (fun _ => .ok (.vstr "d")) (fun _ => .error ()) [1, 2] =
      .ok (JsValue.vstr "d") ∧
    readObject_tryDirect (fun _ => .error ()) (fun b => .ok (.vnum (b.length) true)) [1, 2] =
      .ok (JsValue.vnum 3 true) := by
  constructor
  · exact c9_readObject_policy.1 (fun _ => .ok (.vstr "d")) (fun _ => .error ()) [1, 2]
      (JsValue.vstr "d") rfl
  · have h := c9_readObject_policy.2.1 (fun _ => .error ())
      (fun b => .ok (.vnum (b.length) true)) [1, 2] () rfl
    rw [h]
    simp [int2hexBytes]
